import Mathlib

set_option maxRecDepth 100000
set_option maxHeartbeats 4000000

/-!
Shallow embedding of the ytagent content-summarization pipeline
(src/backend/agents/segmenter.py, classifier.py, transcriber.py,
summarizer.py and src/backend/graph/pipeline.py), together with theorems
checking the specification's claims about it.

Text is modelled as a list of characters; Python's str.split(), str.strip(),
slicing and the specific regular expressions used by the segmenter are
translated directly.  Machine integers do not occur (Python ints are
unbounded); external LLM calls and JSON parsing are taken as parameters.
-/

/-- ASCII whitespace recognized by Python str.split / str.strip and the
regex class \s (space, tab, newline, carriage return, vertical tab, form
feed).  Unicode whitespace is outside the model. -/
def isPySpace (c : Char) : Bool :=
  c = ' ' || c = '\t' || c = '\n' || c = '\r' || c = '\x0b' || c = '\x0c'

/-- Text is modelled as a list of characters. -/
abbrev Text := List Char

/-- Helper for pySplit: `cur` is the current word accumulated in reverse.
Models the run-splitting behaviour of Python str.split() with no argument. -/
def splitAux : Text → Text → List Text
  | [], cur => if cur.isEmpty then [] else [cur.reverse]
  | c :: s, cur =>
    if isPySpace c then
      if cur.isEmpty then splitAux s [] else cur.reverse :: splitAux s []
    else splitAux s (c :: cur)

/-- Python text.split(): split on whitespace runs, yielding no empty words. -/
def pySplit (s : Text) : List Text := splitAux s []

/-- Python text.strip(): drop leading and trailing whitespace. -/
def pyStrip (s : Text) : Text :=
  ((s.dropWhile isPySpace).reverse.dropWhile isPySpace).reverse

/-- count_words from segmenter.py:
`words = [word for word in text.split() if word.strip()]; return len(words)`
(with the `if not text: return 0` guard). -/
def count_words (text : Text) : Nat :=
  if text.isEmpty then 0
  else ((pySplit text).filter (fun w => !(pyStrip w).isEmpty)).length

/-- Python transcript[a:b] for 0 ≤ a ≤ b, clamping past the end as Python does. -/
def pySlice (s : Text) (a b : Nat) : Text := (s.drop a).take (b - a)

/-- Python " ".join(words). -/
def joinSpace : List Text → Text
  | [] => []
  | [w] => w
  | w :: w2 :: rest => w ++ ' ' :: joinSpace (w2 :: rest)

/-- Helper for rfindDot: walk the text keeping the index of the last '.'
(the index is matched on to keep it in normal form at every step). -/
def rfindDotAux : Text → Nat → Int → Int
  | [], _, best => best
  | c :: s, 0, best => rfindDotAux s 1 (if c = '.' then (0 : Int) else best)
  | c :: s, i + 1, best =>
    rfindDotAux s (i + 2) (if c = '.' then ((i : Int) + 1) else best)

/-- Python s.rfind("."): highest index of '.' in s, or -1. -/
def rfindDot (s : Text) : Int := rfindDotAux s 0 (-1)

/-- Proof-side word counter: `iw` records whether the previous character was
part of a word.  Counts word starts; equals count_words when started with
`iw = false`. -/
def wcGo : Bool → Text → Nat
  | _, [] => 0
  | iw, c :: s =>
    if isPySpace c then wcGo false s
    else (if iw then 0 else 1) + wcGo true s

/-- The non-whitespace characters of a text, in order. -/
def nonspace (s : Text) : Text := s.filter (fun c => !isPySpace c)

/-- Helper for textLen; the accumulator is matched on so that it is kept
in normal form at every step (shallow kernel evaluation on long inputs). -/
def textLenAux : Text → Nat → Nat
  | [], n => n
  | _ :: s, 0 => textLenAux s 1
  | _ :: s, n + 1 => textLenAux s (n + 2)

/-- Python len() on text (equal to List.length). -/
def textLen (s : Text) : Nat := textLenAux s 0

/-- Helper for nsLen, strict in the accumulator like textLenAux. -/
def nsLenAux : Text → Nat → Nat
  | [], n => n
  | c :: s, 0 => if isPySpace c then nsLenAux s 0 else nsLenAux s 1
  | c :: s, n + 1 => if isPySpace c then nsLenAux s (n + 1) else nsLenAux s (n + 2)

/-- The number of non-whitespace characters (equal to (nonspace s).length). -/
def nsLen (s : Text) : Nat := nsLenAux s 0

/-! ## Regex matchers for the segmenter's BREAK_MARKERS

Each Python pattern is translated to a matcher that, given the previous
character (for the lookbehind), whether the position is the start of the
string (for ^ without MULTILINE), and the remaining text, returns the
length of the match starting there, if any. -/

/-- A regex matcher at a fixed position. -/
abbrev MatchFn := Option Char → Bool → Text → Option Nat

/-- Case-insensitive character comparison, as used by the (?i) flag. -/
def lowerEq (c d : Char) : Bool := c.toLower = d.toLower

/-- Match a case-insensitive literal at the head; return the rest on success. -/
def matchLit : Text → Text → Option Text
  | [], s => some s
  | _ :: _, [] => none
  | l :: ls, c :: cs => if lowerEq c l then matchLit ls cs else none

/-- Length of the maximal leading run satisfying p (greedy X+ / X*). -/
def runLen (p : Char → Bool) : Text → Nat
  | [] => 0
  | c :: s => if p c then runLen p s + 1 else 0

/-- The regex class \d, restricted to ASCII as with \s. -/
def isDigitCh (c : Char) : Bool := '0' ≤ c && c ≤ '9'

/-- Pattern r"\n\n+" (greedy). -/
def mNewlines : MatchFn := fun _ _ s =>
  match s with
  | '\n' :: '\n' :: rest => some (2 + runLen (fun c => c = '\n') rest)
  | _ => none

/-- A case-insensitive literal followed by \s+ then \d+ (both greedy; no
backtracking is possible because \s and \d are disjoint). -/
def litWsDigits (lit : Text) (s : Text) : Option Nat :=
  match matchLit lit s with
  | none => none
  | some rest =>
    let w := runLen isPySpace rest
    if w = 0 then none
    else
      let d := runLen isDigitCh (rest.drop w)
      if d = 0 then none else some (lit.length + w + d)

/-- Pattern r"(?i)chapter\s+\d+". -/
def mChapter : MatchFn := fun _ _ s => litWsDigits ("chapter".toList) s

/-- Pattern r"(?i)section\s+\d+". -/
def mSection : MatchFn := fun _ _ s => litWsDigits ("section".toList) s

/-- Pattern r"(?i)part\s+\d+". -/
def mPart : MatchFn := fun _ _ s => litWsDigits ("part".toList) s

/-- Pattern r"(?i)^\d+\." — ^ matches only at the start of the string since
re.MULTILINE is not set. -/
def mNumDot : MatchFn := fun _ atStart s =>
  if atStart then
    let d := runLen isDigitCh s
    if d = 0 then none
    else
      match s.drop d with
      | '.' :: _ => some (d + 1)
      | _ => none
  else none

/-- Pattern r"(?i)^step\s+\d+". -/
def mStep : MatchFn := fun _ atStart s =>
  if atStart then litWsDigits ("step".toList) s else none

/-- A case-insensitive literal, then ",?" then \s+: the optional comma is
taken when it is followed by whitespace (Python backtracks otherwise, and
\s+ cannot match the comma itself). -/
def litCommaWs (lit : Text) (s : Text) : Option Nat :=
  match matchLit lit s with
  | none => none
  | some rest =>
    match rest with
    | ',' :: rest2 =>
      let w := runLen isPySpace rest2
      if w = 0 then none else some (lit.length + 1 + w)
    | _ =>
      let w := runLen isPySpace rest
      if w = 0 then none else some (lit.length + w)

/-- Pattern r"(?i)next,?\s+". -/
def mNext : MatchFn := fun _ _ s => litCommaWs ("next".toList) s

/-- Pattern r"(?i)now,?\s+". -/
def mNow : MatchFn := fun _ _ s => litCommaWs ("now".toList) s

/-- A bare case-insensitive literal pattern. -/
def litOnly (lit : Text) : MatchFn := fun _ _ s =>
  match matchLit lit s with
  | none => none
  | some _ => some lit.length

/-- Pattern r"(?i)moving on". -/
def mMovingOn : MatchFn := litOnly ("moving on".toList)

/-- Pattern r"(?i)let's discuss" (the apostrophe is Char 39). -/
def mLetsDiscuss : MatchFn :=
  litOnly ("let".toList ++ [Char.ofNat 39] ++ "s discuss".toList)

/-- Pattern r"(?i)turning to". -/
def mTurningTo : MatchFn := litOnly ("turning to".toList)

/-- Pattern r"(?<=[.!?])\s+": whitespace run preceded by ., ! or ?. -/
def mSentence : MatchFn := fun prev _ s =>
  match prev with
  | some p =>
    if p = '.' || p = '!' || p = '?' then
      let w := runLen isPySpace s
      if w = 0 then none else some w
    else none
  | none => none

/-- Pattern r"(?i)but". -/
def mBut : MatchFn := litOnly ("but".toList)

/-- Pattern r"(?i)however". -/
def mHowever : MatchFn := litOnly ("however".toList)

/-- Pattern r"(?i)moreover". -/
def mMoreover : MatchFn := litOnly ("moreover".toList)

/-- Pattern r"(?i)furthermore". -/
def mFurthermore : MatchFn := litOnly ("furthermore".toList)

/-- One re.finditer match, with match.start(), match.end() and match.group().
(`stop` stands for match.end(); `end` is a Lean keyword.) -/
structure ReMatch where
  start : Nat
  stop : Nat
  text : Text
deriving DecidableEq, Repr

/-- re.finditer: scan left to right, yielding non-overlapping matches and
continuing after each match's end (advancing one character past zero-width
matches, which do not occur for these patterns).  The scan walks one
character at a time; `skip` counts positions still covered by the previous
match, at which no new match is attempted. -/
def finditerAux (m : MatchFn) : Nat → Option Char → Nat → Text → List ReMatch
  | _, _, _, [] => []
  | skip + 1, _, pos, c :: rest => finditerAux m skip (some c) (pos + 1) rest
  | 0, prev, pos, c :: rest =>
    match m prev (pos == 0) (c :: rest) with
    | some L =>
      { start := pos, stop := pos + L, text := (c :: rest).take L }
        :: finditerAux m (max L 1 - 1) (some c) (pos + 1) rest
    | none => finditerAux m 0 (some c) (pos + 1) rest

/-- re.finditer over a whole text. -/
def finditer (m : MatchFn) (s : Text) : List ReMatch := finditerAux m 0 none 0 s

/-- A break point as produced by find_natural_breaks:
{'position': match.start(), 'strength': ..., 'text': match.group()}. -/
structure BreakPoint where
  position : Nat
  strength : String
  text : Text
deriving DecidableEq, Repr

/-- BREAK_MARKERS from segmenter.py, in dict insertion order
(strong, then medium, then weak; patterns in list order). -/
def BREAK_MARKERS : List (String × List MatchFn) :=
  [("strong", [mNewlines, mChapter, mSection, mPart, mNumDot, mStep]),
   ("medium", [mNext, mNow, mMovingOn, mLetsDiscuss, mTurningTo]),
   ("weak", [mSentence, mBut, mHowever, mMoreover, mFurthermore])]

/-- Stable insertion by position: an element is placed after all existing
elements with a position ≤ its own, modelling Python's stable list.sort
with key position. -/
def insertByPos (x : BreakPoint) : List BreakPoint → List BreakPoint
  | [] => [x]
  | y :: ys =>
    if x.position < y.position then x :: y :: ys else y :: insertByPos x ys

/-- breaks.sort(key=lambda x: x['position']) (stable). -/
def sortByPos (l : List BreakPoint) : List BreakPoint :=
  l.foldl (fun acc x => insertByPos x acc) []

/-- find_natural_breaks from segmenter.py: all matches of all patterns with
their strengths, sorted by position. -/
def find_natural_breaks (text : Text) : List BreakPoint :=
  let breaks :=
    (BREAK_MARKERS.map (fun sp =>
      (sp.2.map (fun m =>
        (finditer m text).map (fun mt =>
          { position := mt.start, strength := sp.1, text := mt.text
            : BreakPoint }))).flatten)).flatten
  sortByPos breaks

/-- THRESHOLDS dict from segmenter.py. -/
def THRESHOLDS : List (String × Nat) :=
  [("SHORT", 1500), ("MEDIUM", 4000), ("LONG", 4000)]

/-- THRESHOLDS[k] lookup. -/
def getThreshold (k : String) : Nat := (THRESHOLDS.lookup k).getD 0

/-- SEGMENT_SIZE dict from segmenter.py. -/
def SEGMENT_SIZE : List (String × Nat) :=
  [("TARGET", 1000), ("MIN", 1000), ("MAX", 1500)]

/-- SEGMENT_SIZE["MIN"]. -/
def SEG_MIN : Nat := (SEGMENT_SIZE.lookup "MIN").getD 0

/-- SEGMENT_SIZE["MAX"]. -/
def SEG_MAX : Nat := (SEGMENT_SIZE.lookup "MAX").getD 0

/-- The Segment dataclass (content, index, word_count).  The metadata dict
repeats index and word_count and adds a created_at wall-clock timestamp,
which is outside the model. -/
structure Segment where
  content : Text
  index : Nat
  word_count : Nat
deriving DecidableEq, Repr

/-- create_segment from segmenter.py. -/
def create_segment (text : Text) (index : Nat) : Segment :=
  { content := text, index := index, word_count := count_words text }

/-- The for-loop over sentence_breaks in segment_transcript: last_good is
updated while the prefix word count stays ≤ MAX and the loop stops at the
first overflow, so the result is the last element of the longest prefix of
matches whose cut keeps the word count ≤ MAX. -/
def lastGood (potential : Text) : List ReMatch → Option ReMatch
  | [] => none
  | sb :: rest =>
    if count_words (potential.take sb.stop) ≤ SEG_MAX then
      match lastGood potential rest with
      | some m => some m
      | none => some sb
    else none

/-- The oversize branch of segment_transcript: force a break at the last
sentence boundary of potential_segment keeping the word count ≤ MAX; the
forced position is current_position + sentence_break.end() (an offset into
the stripped potential_segment, exactly as in the source). -/
def forceSentenceBreak (pos : Nat) (potential : Text) : Option BreakPoint :=
  match lastGood potential (finditer mSentence potential) with
  | some sb =>
    some { position := pos + sb.stop, strength := "weak", text := sb.text }
  | none => none

/-- The break-selection loop of segment_transcript: skip breaks at or before
the current position; take the first whose stripped slice has a word count
in [MIN, MAX]; when a slice overflows MAX, try the sentence truncation and
otherwise continue with later breaks. -/
def findSuitable (transcript : Text) (pos : Nat) :
    List BreakPoint → Option BreakPoint
  | [] => none
  | bp :: rest =>
    if bp.position ≤ pos then findSuitable transcript pos rest
    else
      let potential := pyStrip (pySlice transcript pos bp.position)
      let wc := count_words potential
      if SEG_MIN ≤ wc then
        if wc ≤ SEG_MAX then some bp
        else
          match forceSentenceBreak pos potential with
          | some fb => some fb
          | none => findSuitable transcript pos rest
      else findSuitable transcript pos rest

/-- How a segment was produced: directly at a suitable break, by the
sentence-boundary truncation of an oversize candidate, or by the final
forced branch when no suitable break exists. -/
inductive SegOrigin where
  | direct
  | truncated
  | forcedFinal
deriving DecidableEq, Repr

/-- Instrumented copy of findSuitable recording whether the break was taken
directly (true) or via the sentence truncation (false). -/
def findSuitableTag (transcript : Text) (pos : Nat) :
    List BreakPoint → Option (BreakPoint × Bool)
  | [] => none
  | bp :: rest =>
    if bp.position ≤ pos then findSuitableTag transcript pos rest
    else
      let potential := pyStrip (pySlice transcript pos bp.position)
      let wc := count_words potential
      if SEG_MIN ≤ wc then
        if wc ≤ SEG_MAX then some (bp, true)
        else
          match forceSentenceBreak pos potential with
          | some fb => some (fb, false)
          | none => findSuitableTag transcript pos rest
      else findSuitableTag transcript pos rest

/-- The final forced branch of segment_transcript (no suitable break): the
remaining text is taken whole when it has at most MAX words, and otherwise
hard-truncated to the first MAX words joined by single spaces and cut at
the last period when one occurs past index 0. -/
def forcedSegmentText (transcript : Text) (pos : Nat) : Text :=
  let words := pySplit (transcript.drop pos)
  if words.length ≤ SEG_MAX then pyStrip (transcript.drop pos)
  else
    let cs := pyStrip (joinSpace (words.take SEG_MAX))
    let lp := rfindDot cs
    if 0 < lp then pyStrip (cs.take (lp.toNat + 1)) else cs

/-- The while-loop of segment_transcript, driven by fuel (each iteration
strictly increases the position; enough fuel is proved separately).  After
the forced branch the loop ends. -/
def segLoop (transcript : Text) (breaks : List BreakPoint) :
    Nat → Nat → Nat → List Segment
  | 0, _, _ => []
  | fuel + 1, pos, idx =>
    if pos < textLen transcript then
      match findSuitable transcript pos breaks with
      | some sb =>
        let current := pyStrip (pySlice transcript pos sb.position)
        if current.isEmpty then segLoop transcript breaks fuel sb.position idx
        else
          create_segment current idx
            :: segLoop transcript breaks fuel sb.position (idx + 1)
      | none =>
        let current := forcedSegmentText transcript pos
        if current.isEmpty then [] else [create_segment current idx]
    else []

/-- segment_transcript from segmenter.py. -/
def segment_transcript (transcript : Text) : List Segment :=
  segLoop transcript (find_natural_breaks transcript)
    (textLen transcript + 1) 0 0

/-- Instrumented copy of segLoop tagging each segment with its origin. -/
def segLoopTag (transcript : Text) (breaks : List BreakPoint) :
    Nat → Nat → Nat → List (Segment × SegOrigin)
  | 0, _, _ => []
  | fuel + 1, pos, idx =>
    if pos < textLen transcript then
      match findSuitableTag transcript pos breaks with
      | some sb =>
        let current := pyStrip (pySlice transcript pos sb.1.position)
        if current.isEmpty then segLoopTag transcript breaks fuel sb.1.position idx
        else
          (create_segment current idx,
              if sb.2 then SegOrigin.direct else SegOrigin.truncated)
            :: segLoopTag transcript breaks fuel sb.1.position (idx + 1)
      | none =>
        let current := forcedSegmentText transcript pos
        if current.isEmpty then []
        else [(create_segment current idx, SegOrigin.forcedFinal)]
    else []

/-- segment_transcript with origin tags. -/
def segment_transcript_tagged (transcript : Text) : List (Segment × SegOrigin) :=
  segLoopTag transcript (find_natural_breaks transcript)
    (textLen transcript + 1) 0 0

/-- The decision record returned by should_segment. -/
structure SegDecision where
  word_count : Nat
  category : String
  needs_segmentation : Bool
  threshold_used : Nat
deriving DecidableEq, Repr

/-- should_segment from segmenter.py. -/
def should_segment (transcript : Text) : SegDecision :=
  let wc := count_words transcript
  if wc ≤ getThreshold "SHORT" then
    { word_count := wc, category := "SHORT", needs_segmentation := false,
      threshold_used := getThreshold "SHORT" }
  else if wc ≤ getThreshold "MEDIUM" then
    { word_count := wc, category := "MEDIUM", needs_segmentation := false,
      threshold_used := getThreshold "MEDIUM" }
  else
    { word_count := wc, category := "LONG", needs_segmentation := true,
      threshold_used := getThreshold "LONG" }

/-! ## JSON values and the content-type classifier (classifier.py)

json.loads is an external library call; it is modelled by an arbitrary
parameter `parse : String → Option Jval` (None standing for a raised
JSONDecodeError).  The LLM providers are external services modelled as
`Except String String` outcomes (error = raised exception). -/

/-- A parsed JSON value (Python object returned by json.loads). -/
inductive Jval where
  | jnull
  | jbool (b : Bool)
  | jnum (n : Int)
  | jstr (s : String)
  | jarr (elems : List Jval)
  | jobj (fields : List (String × Jval))

/-- Python dict lookup on the field list (keys of a parsed dict are unique;
first match). -/
def jget (fields : List (String × Jval)) (k : String) : Option Jval :=
  match fields with
  | [] => none
  | (k2, v) :: rest => if k2 = k then some v else jget rest k

/-- Python dict assignment: replace in place, append when absent. -/
def jset (fields : List (String × Jval)) (k : String) (v : Jval) :
    List (String × Jval) :=
  match fields with
  | [] => [(k, v)]
  | (k2, v2) :: rest =>
    if k2 = k then (k, v) :: rest else (k2, v2) :: jset rest k v

mutual

/-- json.dumps with the default separators (string escaping elided). -/
def jdumps : Jval → String
  | Jval.jnull => "null"
  | Jval.jbool b => if b then "true" else "false"
  | Jval.jnum n => toString n
  | Jval.jstr s => "\"" ++ s ++ "\""
  | Jval.jarr es => "[" ++ jdumpsArr es ++ "]"
  | Jval.jobj fs => "\x7b" ++ jdumpsObj fs ++ "\x7d"

def jdumpsArr : List Jval → String
  | [] => ""
  | [v] => jdumps v
  | v :: vs => jdumps v ++ ", " ++ jdumpsArr vs

def jdumpsObj : List (String × Jval) → String
  | [] => ""
  | [(k, v)] => "\"" ++ k ++ "\": " ++ jdumps v
  | (k, v) :: fs => "\"" ++ k ++ "\": " ++ jdumps v ++ ", " ++ jdumpsObj fs

end

/-- valid_types from validate_classification. -/
def valid_types : List String :=
  ["Tutorial/How-To", "Educational/Lecture", "Podcast/Discussion",
   "General Content"]

/-- valid_confidence from validate_classification. -/
def valid_confidence : List String := ["high", "medium", "low"]

/-- classification["type"] in valid_types (a non-string value is never in
the list of strings). -/
def isValidType : Option Jval → Bool
  | some (Jval.jstr s) => valid_types.contains s
  | _ => false

/-- classification["confidence"] in valid_confidence. -/
def isValidConf : Option Jval → Bool
  | some (Jval.jstr s) => valid_confidence.contains s
  | _ => false

/-- validate_classification from classifier.py: parse, require the dict
shape and the three fields, then coerce invalid type/confidence values to
"General Content" / "medium". -/
def validate_classification (parse : String → Option Jval)
    (raw_output : String) : Option Jval :=
  match parse raw_output with
  | none => none
  | some v =>
    match v with
    | Jval.jobj fields =>
      if (jget fields "type").isNone then none
      else if (jget fields "confidence").isNone then none
      else if (jget fields "reason").isNone then none
      else
        let f1 :=
          if isValidType (jget fields "type") then fields
          else jset fields "type" (Jval.jstr "General Content")
        let f2 :=
          if isValidConf (jget f1 "confidence") then f1
          else jset f1 "confidence" (Jval.jstr "medium")
        some (Jval.jobj f2)
    | _ => none

/-- The default classification dict built by classify_content on failure. -/
def default_classification (reason : String) : Jval :=
  Jval.jobj
    [("type", Jval.jstr "General Content"),
     ("confidence", Jval.jstr "low"),
     ("reason", Jval.jstr reason)]

/-- The Ollama fallback of classify_content: an empty Ollama response
raises and is caught, an invalid classification falls through to the
default General Content classification. -/
def classify_fallback (parse : String → Option Jval)
    (ollama : Except String String) : Jval :=
  match ollama with
  | Except.error e =>
    default_classification ("Classification error: " ++ e)
  | Except.ok raw =>
    if raw = "" then
      default_classification
        ("Classification error: Empty response from Ollama")
    else
      match validate_classification parse raw with
      | some c => c
      | none =>
        default_classification
          "Failed to get valid classification from models"

/-- classify_content from classifier.py, at the value level: try OpenAI,
fall back to Ollama, and fall back to the default General Content
classification when both fail to produce a valid classification. -/
def classify_content_val (parse : String → Option Jval)
    (openai ollama : Except String String) : Jval :=
  match openai with
  | Except.error _ => classify_fallback parse ollama
  | Except.ok raw =>
    match validate_classification parse raw with
    | some c => c
    | none => classify_fallback parse ollama

/-- classify_content returns json.dumps of the classification dict. -/
def classify_content (parse : String → Option Jval)
    (openai ollama : Except String String) : String :=
  jdumps (classify_content_val parse openai ollama)

/-- The dict returned by classifier_node. -/
structure ClassifierOut where
  error : Option String
  classification : String
deriving DecidableEq, Repr

/-- classifier_node from classifier.py.  A missing or empty transcript takes
the early error return; classify_content itself never raises, so the
catch-all except branch is dead code in the model. -/
def classifier_node (parse : String → Option Jval)
    (openai ollama : Except String String) (transcript : Option String) :
    ClassifierOut :=
  if transcript.getD "" = "" then
    { error := some "No transcript provided",
      classification := jdumps (default_classification "No transcript provided") }
  else
    { error := none,
      classification := classify_content parse openai ollama }

/-! ## transcriber.py -/

/-- Python str.strip() on strings. -/
def pyStripS (s : String) : String := String.mk (pyStrip s.toList)

/-- get_video_id from transcriber.py: ValueError is modelled as the error
branch; "v=" in url is tested via splitOn producing more than one part, and
url.split(x)[1].split(y)[0] is translated with the same list indexing. -/
def get_video_id (url : String) : Except String String :=
  if url = "" then Except.error "No URL provided"
  else if 2 ≤ (url.splitOn "v=").length then
    Except.ok ((((url.splitOn "v=").getD 1 "").splitOn "&").getD 0 "")
  else if 2 ≤ (url.splitOn "youtu.be/").length then
    Except.ok ((((url.splitOn "youtu.be/").getD 1 "").splitOn "?").getD 0 "")
  else Except.error "Invalid YouTube URL format"

/-- Python " ".join for strings (the transcriber joins with ' '). -/
def joinSpaceStr : List String → String
  | [] => ""
  | [x] => x
  | x :: xs => x ++ " " ++ joinSpaceStr xs

/-- The dict returned by transcriber_node. -/
structure TranscriberOut where
  error : Option String
  transcript : Option String
deriving DecidableEq, Repr

/-- transcriber_node from transcriber.py.  The YouTubeTranscriptApi call is
external and is modelled by `api`, returning the text items of the
transcript list or a raised exception. -/
def transcriber_node (api : String → Except String (List String))
    (video_url : Option String) : TranscriberOut :=
  if video_url.getD "" = "" then
    { error := some "No video URL provided in state", transcript := none }
  else
    match get_video_id (video_url.getD "") with
    | Except.error e => { error := some e, transcript := none }
    | Except.ok vid =>
      match api vid with
      | Except.error e =>
        { error := some ("Failed to fetch transcript: " ++ e),
          transcript := none }
      | Except.ok items =>
        { error := none, transcript := some (joinSpaceStr items) }

/-! ## segmenter_node -/

/-- A segment dict as stored in the pipeline state (created_at omitted:
wall-clock time is outside the model). -/
structure SegmentDict where
  content : Text
  index : Nat
  word_count : Nat
deriving DecidableEq, Repr

/-- The dict returned by segmenter_node. -/
structure SegmenterOut where
  error : Option String
  segmentation_info : Option SegDecision
  needs_segmentation : Bool
  segments : Option (List SegmentDict)
deriving DecidableEq, Repr

/-- segmenter_node from segmenter.py: early error return on a missing or
empty transcript; otherwise segment when should_segment demands it and
pass the whole transcript through as a single segment otherwise.  The body
is pure, so the catch-all except branch is dead code in the model. -/
def segmenter_node (transcript : Option Text) : SegmenterOut :=
  match transcript with
  | none =>
    { error := some "No transcript provided", segmentation_info := none,
      needs_segmentation := false, segments := none }
  | some t =>
    if t.isEmpty then
      { error := some "No transcript provided", segmentation_info := none,
        needs_segmentation := false, segments := none }
    else
      let info := should_segment t
      if info.needs_segmentation then
        { error := none, segmentation_info := some info,
          needs_segmentation := true,
          segments := some ((segment_transcript t).map (fun s =>
            { content := s.content, index := s.index,
              word_count := s.word_count })) }
      else
        { error := none, segmentation_info := some info,
          needs_segmentation := false,
          segments := some [SegmentDict.mk t 0 info.word_count] }

/-! ## summarizer.py

The two LLM providers are modelled as functions from the prompt to an
`Except String String` outcome (error = raised exception).  created_at and
model_used metadata (wall-clock time and Python type introspection) are
outside the model; the inner indentation of the Python triple-quoted
prompt literals is elided. -/

/-- Segment metadata carried through the summarizer state. -/
structure SegMeta where
  index : Nat
  word_count : Nat
deriving DecidableEq, Repr

/-- A summary dict: content plus the metadata fields the code writes. -/
structure Summary where
  content : String
  video_type : String
  segment_index : Option Nat := none
  seg_word_count : Option Nat := none
  mtype : Option String := none
  segment_count : Option Nat := none
  is_long_format : Option Bool := none
  total_words : Option Nat := none
  failed_segments : Option (List Nat) := none
deriving DecidableEq, Repr

/-- The classification parsing shared by summarize_segment and
summarizer_node: json.loads (modelled by `parse`), the isinstance checks,
and class_info.get("type", "General Content"), every failure falling back
to "General Content".  A non-string "type" value is also mapped to
"General Content" (the source would carry it into a prompt-template lookup
that then falls back to the General Content template). -/
def videoTypeOf (parse : String → Option Jval) (classification : String) :
    String :=
  match parse classification with
  | some (Jval.jobj fields) =>
    match jget fields "type" with
    | some (Jval.jstr s) => s
    | _ => "General Content"
  | _ => "General Content"

/-- The type_specific_prompts dict of get_summary_prompt. -/
def type_specific_prompts : List (String × String) :=
  [("Tutorial/How-To",
    "Create a step-by-step summary of this tutorial:\n- List any prerequisites or requirements\n- Extract clear, numbered steps\n- Highlight important warnings or tips\n- Note the expected outcome\n\nFormat the summary with clear sections and bullet points.\n"),
   ("Educational/Lecture",
    "Create an educational summary of this content:\n- Main concepts and definitions\n- Key learning points\n- Important examples or applications\n- Core takeaways\n\nFormat the summary with clear sections and bullet points.\n"),
   ("Podcast/Discussion",
    "Create a discussion summary:\n- Main topics covered\n- Key arguments or viewpoints\n- Important quotes or statements\n- Major conclusions\n\nFormat the summary with clear sections and bullet points.\n"),
   ("General Content",
    "Create a general summary:\n- Main points and themes\n- Key highlights\n- Notable information\n- Important conclusions\n\nFormat the summary with clear sections and bullet points.\n")]

/-- get_summary_prompt from summarizer.py. -/
def get_summary_prompt (transcript : String) (video_type : String)
    (is_segment : Bool) (segment_info : Option SegMeta) : String :=
  let base :=
    "Please summarize the following"
      ++ (if is_segment then
            " segment (part "
              ++ toString (((segment_info.map (fun m => m.index)).getD 0) + 1)
              ++ ")"
          else "")
      ++ " transcript"
  base ++ ":\n\n"
    ++ ((type_specific_prompts.lookup video_type).getD
          ((type_specific_prompts.lookup "General Content").getD ""))
    ++ "\n\nTranscript:\n" ++ transcript

/-- The "Segment {i+1}:\n{content}" join of get_global_summary_prompt. -/
def segment_summaries_text : Nat → List Summary → String
  | _, [] => ""
  | i, [s] => "Segment " ++ toString (i + 1) ++ ":\n" ++ s.content
  | i, s :: s2 :: rest =>
    "Segment " ++ toString (i + 1) ++ ":\n" ++ s.content ++ "\n\n"
      ++ segment_summaries_text (i + 1) (s2 :: rest)

/-- get_global_summary_prompt from summarizer.py. -/
def get_global_summary_prompt (segment_summaries : List Summary)
    (video_type : String) : String :=
  "Create a comprehensive global summary of this " ++ video_type
    ++ " content based on the following segment summaries.\nFocus on:\n- Main themes and key points across all segments\n- Important connections between segments\n- Overall progression of ideas\n- Key takeaways from the entire content\n\nSegment Summaries:\n"
    ++ segment_summaries_text 0 segment_summaries

/-- create_global_summary from summarizer.py: OpenAI with Ollama fallback;
any failure of both is caught and reported as an error dict. -/
def create_global_summary (openai ollama : String → Except String String)
    (segment_summaries : List Summary) (video_type : String) :
    Except String Summary :=
  let prompt := get_global_summary_prompt segment_summaries video_type
  let res :=
    match openai prompt with
    | Except.ok s => Except.ok s
    | Except.error _ => ollama prompt
  match res with
  | Except.ok s =>
    Except.ok
      { content := s, video_type := video_type,
        mtype := some "global_summary",
        segment_count := some segment_summaries.length }
  | Except.error e => Except.error e

/-- summarize_segment from summarizer.py: parse the classification, build
the type-specific prompt, try OpenAI then Ollama (an empty Ollama response
raises), and reject an all-whitespace summary.  Errors are raised
(Except.error). -/
def summarize_segment (parse : String → Option Jval)
    (openai ollama : String → Except String String) (text : String)
    (classification : String) (segment_info : Option SegMeta) :
    Except String Summary :=
  let video_type := videoTypeOf parse classification
  let prompt := get_summary_prompt text video_type segment_info.isSome segment_info
  let attempt : Except String String :=
    match openai prompt with
    | Except.ok s => Except.ok s
    | Except.error _ =>
      match ollama prompt with
      | Except.ok s =>
        if s = "" then
          Except.error "Both OpenAI and Ollama failed: Empty response from Ollama"
        else Except.ok s
      | Except.error e => Except.error ("Both OpenAI and Ollama failed: " ++ e)
  match attempt with
  | Except.error e => Except.error e
  | Except.ok summary_text =>
    if pyStripS summary_text = "" then
      Except.error "Empty summary received from model"
    else
      Except.ok
        { content := summary_text, video_type := video_type,
          segment_index := segment_info.map (fun m => m.index),
          seg_word_count := segment_info.map (fun m => m.word_count) }

/-- A segment dict as read from the pipeline state by summarizer_node. -/
structure StateSegment where
  content : String
  metadata : Option SegMeta
deriving DecidableEq, Repr

/-- The slice of the pipeline state summarizer_node reads. -/
structure SummarizerState where
  segments : Option (List StateSegment)
  transcript : Option String
  classification : Option String
deriving DecidableEq, Repr

/-- The dict returned by summarizer_node. -/
structure SummarizerOut where
  error : Option String
  summaries : List Summary
deriving DecidableEq, Repr

/-- The validation loop of summarizer_node: drop segments whose stripped
content is empty, keep the stripped content, and substitute default
metadata (enumeration index, split word count) when it is missing. -/
def validateStateSegments (segs : List StateSegment) : List StateSegment :=
  segs.enum.filterMap (fun p =>
    let content := pyStripS p.2.content
    if content = "" then none
    else
      some
        { content := content,
          metadata := some ((p.2.metadata).getD
            { index := p.1, word_count := (pySplit content.toList).length }) })

/-- The per-segment summarization loop of summarizer_node: collect the
summaries that succeed with non-empty content, in order, and the metadata
indices of the segments that fail. -/
def summarizeAll (parse : String → Option Jval)
    (openai ollama : String → Except String String)
    (classification : String) : List StateSegment → List Summary × List Nat
  | [] => ([], [])
  | seg :: rest =>
    let r := summarizeAll parse openai ollama classification rest
    match summarize_segment parse openai ollama seg.content classification
        seg.metadata with
    | Except.ok summary =>
      if pyStripS summary.content = "" then
        (r.1, ((seg.metadata.map (fun m => m.index)).getD 0) :: r.2)
      else (summary :: r.1, r.2)
    | Except.error _ =>
      (r.1, ((seg.metadata.map (fun m => m.index)).getD 0) :: r.2)

/-- summarizer_node after the segments/transcript fallback resolved. -/
def summarizer_node_core (parse : String → Option Jval)
    (openai ollama : String → Except String String)
    (classification0 : Option String) (segs : List StateSegment) :
    SummarizerOut :=
  let valid := validateStateSegments segs
  if valid.isEmpty then
    { error := some "No valid segments available for summarization",
      summaries := [] }
  else
    let classification :=
      classification0.getD "\x7b\"type\": \"General Content\"\x7d"
    let video_type := videoTypeOf parse classification
    let r := summarizeAll parse openai ollama classification valid
    let summaries := r.1
    let failed := r.2
    if summaries.isEmpty then
      { error := some ("Failed to generate summaries. Failed segments: "
          ++ toString failed),
        summaries := [] }
    else if 1 < summaries.length then
      match create_global_summary openai ollama summaries video_type with
      | Except.error e =>
        { summaries := summaries,
          error := some ("Failed to create global summary: " ++ e) }
      | Except.ok g =>
        let g2 :=
          { g with
            is_long_format := some true
            segment_count := some summaries.length
            total_words :=
              some ((summaries.map (fun s => s.seg_word_count.getD 0)).sum)
            failed_segments := if failed.isEmpty then none else some failed }
        { summaries := [g2],
          error :=
            if failed.isEmpty then none
            else some ("Some segments failed: " ++ toString failed) }
    else
      { summaries := summaries,
        error :=
          if failed.isEmpty then none
          else some ("Some segments failed: " ++ toString failed) }

/-- summarizer_node from summarizer.py: a missing or empty segments list
falls back to a single segment built from the transcript; with no usable
transcript either, the node returns the error dict with no summaries. -/
def summarizer_node (parse : String → Option Jval)
    (openai ollama : String → Except String String)
    (state : SummarizerState) : SummarizerOut :=
  match state.segments with
  | some (s :: rest) =>
    summarizer_node_core parse openai ollama state.classification (s :: rest)
  | _ =>
    match state.transcript with
    | some t =>
      if pyStripS t = "" then
        { error := some "No valid content provided for summarization",
          summaries := [] }
      else
        summarizer_node_core parse openai ollama state.classification
          [{ content := t,
             metadata := some { index := 0,
                                word_count := (pySplit t.toList).length } }]
    | none =>
      { error := some "No valid content provided for summarization",
        summaries := [] }

/-! ## graph/pipeline.py

create_pipeline wires a langgraph StateGraph; the graph structure (nodes,
edges, the conditional edge and its mapping, the entry point) is data in
the source and is embedded below.  Following an edge from the current node
(langgraph's execution of the compiled graph) is modelled by next_node /
pipeline_trace. -/

/-- The slice of PipelineState the router reads. -/
structure RouteState where
  needs_segmentation : Option Bool
deriving DecidableEq, Repr

/-- route_to_summarizer from create_pipeline. -/
def route_to_summarizer (state : RouteState) : String :=
  if state.needs_segmentation.getD false then "segment_summarize"
  else "full_summarize"

/-- The nodes added by create_pipeline, in order. -/
def pipeline_nodes : List String :=
  ["transcriber", "classifier", "segmenter", "summarizer",
   "generate_insights"]

/-- The plain edges added by create_pipeline. -/
def pipeline_edges : List (String × String) :=
  [("transcriber", "classifier"), ("classifier", "segmenter"),
   ("summarizer", "generate_insights")]

/-- The mapping of the conditional edge out of "segmenter". -/
def conditional_edge_mapping : List (String × String) :=
  [("segment_summarize", "summarizer"), ("full_summarize", "summarizer")]

/-- The entry point set by create_pipeline. -/
def entry_point : String := "transcriber"

/-- The successor of a node in the compiled graph: a plain edge when one
exists, the routed conditional edge out of the segmenter, and the end of
the run otherwise. -/
def next_node (state : RouteState) (cur : String) : Option String :=
  match pipeline_edges.lookup cur with
  | some n => some n
  | none =>
    if cur = "segmenter" then
      conditional_edge_mapping.lookup (route_to_summarizer state)
    else none

/-- The nodes visited from `cur`, following successors (with fuel). -/
def pipeline_trace_from (state : RouteState) : Nat → String → List String
  | 0, cur => [cur]
  | fuel + 1, cur =>
    match next_node state cur with
    | some nxt => cur :: pipeline_trace_from state fuel nxt
    | none => [cur]

/-- The nodes visited by a pipeline run. -/
def pipeline_trace (state : RouteState) : List String :=
  pipeline_trace_from state pipeline_nodes.length entry_point

/-! ## Concrete example inputs used by witnesses and counterexamples -/

/-- Helper for flatRep, accumulating copies in front. -/
def flatRepAux : Nat → Text → Text → Text
  | 0, _, acc => acc
  | n + 1, s, acc => flatRepAux n s (s ++ acc)

/-- n copies of a text, concatenated (built with an accumulator so that
kernel evaluation of the long example inputs stays shallow). -/
def flatRep (n : Nat) (s : Text) : Text := flatRepAux n s []

/-- 1606 words ("a a a a a." then 1601 more "a"), with a sentence break
after the 5th word and no other break marker. -/
def exTallNoBreaks : Text := "a a a a a. ".toList ++ flatRep 1601 "a ".toList

/-- Like exTallNoBreaks, but ending in a strong break and a final word, so
that the truncated 5-word segment is followed by another segment. -/
def exTruncThenMore : Text :=
  "a a a a a. ".toList ++ flatRep 1600 "a ".toList ++ "\n\nDone".toList

/-- 1000 words ending in a period (a weak sentence break), then 50 more
words, then a strong paragraph break, then a short tail: both the weak
break (1000 words) and the strong break (1050 words) qualify. -/
def exWeakBeforeStrong : Text :=
  flatRep 999 "a ".toList ++ "a. ".toList ++ flatRep 50 "b ".toList
    ++ "\n\nEnd.".toList

/-- The contents of a segment list, concatenated. -/
def segContents (segs : List Segment) : Text :=
  (segs.map (fun s => s.content)).flatten

/-- A break point with its strength relabelled. -/
def relabelBp (f : BreakPoint → String) (b : BreakPoint) : BreakPoint :=
  { b with strength := f b }

/-- The summary summarize_segment produces for a segment when the OpenAI
call returns `f` of the prompt and that response survives the emptiness
check (used to state the summarizer claim). -/
def c9_segment_summary (parse : String → Option Jval) (f : String → String)
    (classification : String) (sg : StateSegment) : Summary :=
  { content := f (get_summary_prompt sg.content (videoTypeOf parse classification)
      sg.metadata.isSome sg.metadata),
    video_type := videoTypeOf parse classification,
    segment_index := sg.metadata.map (fun m => m.index),
    seg_word_count := sg.metadata.map (fun m => m.word_count) }

/-- The single global summary summarizer_node returns over the per-segment
summaries when every LLM call succeeds via `f` (used to state the
summarizer claim). -/
def c9_global_summary (parse : String → Option Jval) (f : String → String)
    (classification : String) (segs : List StateSegment) : Summary :=
  let per := segs.map (c9_segment_summary parse f classification)
  { content := f (get_global_summary_prompt per
      (videoTypeOf parse classification)),
    video_type := videoTypeOf parse classification,
    mtype := some "global_summary",
    segment_count := some per.length,
    is_long_format := some true,
    total_words := some ((per.map (fun s => s.seg_word_count.getD 0)).sum),
    failed_segments := none }

/-! # Lemmas about the text primitives -/

theorem splitAux_length (s : Text) :
    ∀ cur : Text, (splitAux s cur).length
      = (if cur.isEmpty then 0 else 1) + wcGo (!cur.isEmpty) s := by
  induction s with
  | nil =>
    intro cur
    by_cases h : cur.isEmpty <;> simp [splitAux, wcGo, h]
  | cons c s ih =>
    intro cur
    by_cases hc : isPySpace c
    · by_cases h : cur.isEmpty <;>
        simp [splitAux, wcGo, hc, h, ih []] <;> omega
    · have h2 := ih (c :: cur)
      simp only [splitAux, hc, if_false, Bool.false_eq_true, wcGo] at h2 ⊢
      rw [h2]
      by_cases h : cur.isEmpty <;> simp [h] <;> omega

theorem pySplit_length_eq_wcGo (s : Text) :
    (pySplit s).length = wcGo false s := by
  simpa using splitAux_length s []

theorem splitAux_mem (s : Text) :
    ∀ cur w, (∀ c ∈ cur, isPySpace c = false) → w ∈ splitAux s cur →
      w ≠ [] ∧ ∀ c ∈ w, isPySpace c = false := by
  induction s with
  | nil =>
    intro cur w hcur hw
    by_cases h : cur.isEmpty
    · simp [splitAux, h] at hw
    · simp [splitAux, h] at hw
      subst hw
      refine ⟨by simpa [List.isEmpty_iff] using h, ?_⟩
      intro c hc
      exact hcur c (by simpa using hc)
  | cons c s ih =>
    intro cur w hcur hw
    by_cases hc : isPySpace c
    · by_cases h : cur.isEmpty
      · simp only [splitAux, hc, if_true, h] at hw
        exact ih [] w (by simp) hw
      · simp [splitAux, hc, h] at hw
        rcases hw with rfl | hw
        · refine ⟨by simpa [List.isEmpty_iff] using h, ?_⟩
          intro d hd
          exact hcur d (by simpa using hd)
        · exact ih [] w (by simp) hw
    · simp only [splitAux, hc, if_false] at hw
      refine ih (c :: cur) w ?_ hw
      intro d hd
      rcases List.mem_cons.mp hd with rfl | hd
      · simpa using hc
      · exact hcur d hd

theorem dropWhile_of_all_false {p : Char → Bool} :
    ∀ w : Text, (∀ c ∈ w, p c = false) → w.dropWhile p = w := by
  intro w hw
  cases w with
  | nil => rfl
  | cons c s => simp [List.dropWhile, hw c (by simp)]

theorem pyStrip_of_all_nonspace (w : Text)
    (hw : ∀ c ∈ w, isPySpace c = false) : pyStrip w = w := by
  unfold pyStrip
  rw [dropWhile_of_all_false w hw]
  rw [dropWhile_of_all_false w.reverse (by intro c hc; exact hw c (by simpa using hc))]
  simp

theorem count_words_eq_wcGo (s : Text) : count_words s = wcGo false s := by
  unfold count_words
  by_cases h : s.isEmpty
  · rw [if_pos h]
    rw [List.isEmpty_iff] at h
    subst h
    rfl
  · rw [if_neg h]
    have hfil : (pySplit s).filter (fun w => !(pyStrip w).isEmpty) = pySplit s := by
      apply List.filter_eq_self.mpr
      intro w hw
      have hwp := splitAux_mem s [] w (by simp) hw
      rw [pyStrip_of_all_nonspace w hwp.2]
      simpa [List.isEmpty_iff] using hwp.1
    rw [hfil, pySplit_length_eq_wcGo]

theorem wcGo_ws_only : ∀ (e : Text) (iw : Bool),
    (∀ c ∈ e, isPySpace c = true) → wcGo iw e = 0 := by
  intro e
  induction e with
  | nil => intro iw _; rfl
  | cons c s ih =>
    intro iw h
    simp only [wcGo, h c (by simp), if_true]
    exact ih false (by intro d hd; exact h d (by simp [hd]))

theorem wcGo_ws_append : ∀ (a b : Text),
    (∀ c ∈ a, isPySpace c = true) → wcGo false (a ++ b) = wcGo false b := by
  intro a b
  induction a with
  | nil => intro _; rfl
  | cons c s ih =>
    intro h
    simp only [List.cons_append, wcGo, h c (by simp), if_true]
    exact ih (by intro d hd; exact h d (by simp [hd]))

theorem wcGo_word_append (w : Text) (hw : ∀ c ∈ w, isPySpace c = false)
    (hne : w ≠ []) :
    ∀ y, wcGo false (w ++ y) = 1 + wcGo true y ∧ wcGo true (w ++ y) = wcGo true y := by
  induction w with
  | nil => exact absurd rfl hne
  | cons c s ih =>
    intro y
    by_cases hs : s = []
    · subst hs
      simp [wcGo, hw c (by simp)]
    · have hs2 : ∀ c ∈ s, isPySpace c = false := by
        intro d hd; exact hw d (by simp [hd])
      have h2 := ih hs2 hs y
      constructor <;> simp [wcGo, hw c (by simp), h2.2]

theorem wcGo_take_le : ∀ (l : Text) (n : Nat) (iw : Bool),
    wcGo iw (l.take n) ≤ wcGo iw l := by
  intro l
  induction l with
  | nil => intro n iw; simp
  | cons c s ih =>
    intro n iw
    cases n with
    | zero => simp [wcGo]
    | succ n =>
      simp only [List.take_succ_cons, wcGo]
      by_cases hc : isPySpace c
      · simp only [hc, if_true]
        exact ih n false
      · simp only [hc, if_false]
        exact Nat.add_le_add_left (ih n true) _

theorem wcGo_joinSpace : ∀ ws : List Text,
    (∀ w ∈ ws, w ≠ [] ∧ ∀ c ∈ w, isPySpace c = false) →
    wcGo false (joinSpace ws) = ws.length := by
  intro ws
  induction ws with
  | nil => intro _; rfl
  | cons w rest ih =>
    intro h
    cases rest with
    | nil =>
      have h1 := (wcGo_word_append w (h w (by simp)).2 (h w (by simp)).1 []).1
      simpa [joinSpace, wcGo] using h1
    | cons w2 rest2 =>
      have hrest : ∀ v ∈ w2 :: rest2, v ≠ [] ∧ ∀ c ∈ v, isPySpace c = false := by
        intro v hv; exact h v (by simp [hv])
      have h2 := ih hrest
      have h3 := (wcGo_word_append w (h w (by simp)).2 (h w (by simp)).1
        (' ' :: joinSpace (w2 :: rest2))).1
      show wcGo false (w ++ ' ' :: joinSpace (w2 :: rest2)) = _
      rw [h3]
      simp only [wcGo, show isPySpace ' ' = true from rfl, if_true]
      rw [h2]
      simp only [List.length_cons]
      omega

theorem wcGo_append_ws (e : Text) (he : ∀ c ∈ e, isPySpace c = true) :
    ∀ (x : Text) (iw : Bool), wcGo iw (x ++ e) = wcGo iw x := by
  intro x
  induction x with
  | nil =>
    intro iw
    simpa [wcGo] using wcGo_ws_only e iw he
  | cons c s ih =>
    intro iw
    by_cases hc : isPySpace c <;> simp [wcGo, hc, ih]

theorem wcGo_dropWhile (s : Text) :
    wcGo false (s.dropWhile isPySpace) = wcGo false s := by
  induction s with
  | nil => rfl
  | cons c s ih =>
    by_cases hc : isPySpace c <;> simp [List.dropWhile, wcGo, hc, ih]

theorem strip_decomp (r : Text) :
    r = (r.reverse.dropWhile isPySpace).reverse
        ++ (r.reverse.takeWhile isPySpace).reverse := by
  conv_lhs => rw [← List.reverse_reverse r,
    ← List.takeWhile_append_dropWhile isPySpace r.reverse]
  rw [List.reverse_append]

theorem strip_tail_ws (r : Text) :
    ∀ c ∈ (r.reverse.takeWhile isPySpace).reverse, isPySpace c = true := by
  intro c hc
  exact List.mem_takeWhile_imp (List.mem_reverse.mp hc)

theorem count_words_strip (s : Text) :
    count_words (pyStrip s) = count_words s := by
  rw [count_words_eq_wcGo, count_words_eq_wcGo]
  unfold pyStrip
  have h1 : wcGo false ((s.dropWhile isPySpace).reverse.dropWhile isPySpace).reverse
      = wcGo false (s.dropWhile isPySpace) := by
    conv_rhs => rw [strip_decomp (s.dropWhile isPySpace)]
    rw [wcGo_append_ws _ (strip_tail_ws (s.dropWhile isPySpace))]
  rw [h1, wcGo_dropWhile]

theorem nonspace_append (a b : Text) :
    nonspace (a ++ b) = nonspace a ++ nonspace b := by
  simp [nonspace, List.filter_append]

theorem nonspace_ws (e : Text) (he : ∀ c ∈ e, isPySpace c = true) :
    nonspace e = [] := by
  simp only [nonspace, List.filter_eq_nil_iff]
  intro c hc
  simp [he c hc]

theorem nonspace_strip (s : Text) : nonspace (pyStrip s) = nonspace s := by
  unfold pyStrip
  have h1 : nonspace (s.dropWhile isPySpace) = nonspace s := by
    induction s with
    | nil => rfl
    | cons c t ih =>
      by_cases hc : isPySpace c <;> simp [List.dropWhile, nonspace, hc] at ih ⊢ <;>
        simp [ih]
  conv_rhs => rw [← h1, strip_decomp (s.dropWhile isPySpace)]
  rw [nonspace_append, nonspace_ws _ (strip_tail_ws (s.dropWhile isPySpace))]
  simp

theorem nonspace_of_all_nonspace (w : Text)
    (hw : ∀ c ∈ w, isPySpace c = false) : nonspace w = w := by
  apply List.filter_eq_self.mpr
  intro c hc
  simp [hw c hc]

theorem splitAux_flatten (s : Text) :
    ∀ cur : Text, (splitAux s cur).flatten = cur.reverse ++ nonspace s := by
  induction s with
  | nil =>
    intro cur
    by_cases h : cur.isEmpty
    · rw [List.isEmpty_iff] at h
      subst h
      rfl
    · simp [splitAux, h, nonspace]
  | cons c s ih =>
    intro cur
    by_cases hc : isPySpace c
    · have hns : nonspace (c :: s) = nonspace s := by simp [nonspace, hc]
      by_cases h : cur.isEmpty
      · rw [List.isEmpty_iff] at h
        subst h
        simp only [splitAux, hc, if_true, List.isEmpty_nil, ih []]
        simp [hns]
      · have h0 := ih []
        simp only [List.reverse_nil, List.nil_append] at h0
        simp [splitAux, hc, h, hns, h0]
    · have hns : nonspace (c :: s) = c :: nonspace s := by simp [nonspace, hc]
      have h0 := ih (c :: cur)
      simp [splitAux, hc, hns, h0]

theorem pySplit_flatten (s : Text) : (pySplit s).flatten = nonspace s := by
  simpa [pySplit] using splitAux_flatten s []

theorem nonspace_joinSpace : ∀ ws : List Text,
    (∀ w ∈ ws, ∀ c ∈ w, isPySpace c = false) →
    nonspace (joinSpace ws) = ws.flatten := by
  intro ws
  induction ws with
  | nil => intro _; rfl
  | cons w rest ih =>
    intro h
    cases rest with
    | nil =>
      show nonspace w = w ++ []
      rw [nonspace_of_all_nonspace w (h w (by simp))]
      simp
    | cons w2 rest2 =>
      have h2 := ih (by intro v hv c hc; exact h v (by simp [hv]) c hc)
      show nonspace (w ++ ' ' :: joinSpace (w2 :: rest2)) = _
      rw [nonspace_append, nonspace_of_all_nonspace w (h w (by simp))]
      have hsp : nonspace (' ' :: joinSpace (w2 :: rest2))
          = nonspace (joinSpace (w2 :: rest2)) := by
        exact List.filter_cons_of_neg (by decide)
      rw [hsp, h2]
      simp

theorem pyStrip_length_le (s : Text) : (pyStrip s).length ≤ s.length := by
  unfold pyStrip
  have h1 : ∀ (t : Text), (t.dropWhile isPySpace).length ≤ t.length := by
    intro t
    induction t with
    | nil => simp
    | cons c u ih =>
      by_cases hc : isPySpace c <;> simp [List.dropWhile, hc] <;> omega
  calc ((s.dropWhile isPySpace).reverse.dropWhile isPySpace).reverse.length
      ≤ (s.dropWhile isPySpace).reverse.length := by
        simpa using h1 (s.dropWhile isPySpace).reverse
    _ ≤ s.length := by simpa using h1 s

theorem pyStrip_empty_nonspace (s : Text) (h : pyStrip s = []) :
    nonspace s = [] := by
  rw [← nonspace_strip, h]
  rfl

theorem textLenAux_eq (s : Text) :
    ∀ n : Nat, textLenAux s n = n + s.length := by
  induction s with
  | nil => intro n; simp [textLenAux]
  | cons c r ih =>
    intro n
    cases n with
    | zero =>
      show textLenAux r 1 = 0 + (r.length + 1)
      rw [ih 1]
      omega
    | succ m =>
      show textLenAux r (m + 2) = (m + 1) + (r.length + 1)
      rw [ih (m + 2)]
      omega

theorem textLen_eq (s : Text) : textLen s = s.length := by
  unfold textLen
  rw [textLenAux_eq]
  omega

theorem nsLenAux_eq (s : Text) :
    ∀ n : Nat, nsLenAux s n = n + (nonspace s).length := by
  induction s with
  | nil => intro n; simp [nsLenAux, nonspace]
  | cons c r ih =>
    intro n
    by_cases hc : isPySpace c
    · have hns : nonspace (c :: r) = nonspace r := by simp [nonspace, hc]
      cases n with
      | zero =>
        show (if isPySpace c then nsLenAux r 0 else nsLenAux r 1) = _
        rw [if_pos hc, ih 0, hns]
      | succ m =>
        show (if isPySpace c then nsLenAux r (m + 1) else nsLenAux r (m + 2)) = _
        rw [if_pos hc, ih (m + 1), hns]
    · have hns : nonspace (c :: r) = c :: nonspace r := by simp [nonspace, hc]
      cases n with
      | zero =>
        show (if isPySpace c then nsLenAux r 0 else nsLenAux r 1) = _
        rw [if_neg hc, ih 1, hns]
        simp only [List.length_cons]
        omega
      | succ m =>
        show (if isPySpace c then nsLenAux r (m + 1) else nsLenAux r (m + 2)) = _
        rw [if_neg hc, ih (m + 2), hns]
        simp only [List.length_cons]
        omega

theorem nsLen_eq (s : Text) : (nonspace s).length = nsLen s := by
  unfold nsLen
  rw [nsLenAux_eq]
  omega

/-! ## finditer and break-selection lemmas -/

theorem runLen_le (p : Char → Bool) : ∀ s : Text, runLen p s ≤ s.length := by
  intro s
  induction s with
  | nil => simp [runLen]
  | cons c t ih =>
    by_cases hc : p c <;> simp [runLen, hc] <;> omega

theorem finditerAux_bounds (m : MatchFn)
    (hm : ∀ p a s L, m p a s = some L → 1 ≤ L ∧ L ≤ s.length) :
    ∀ (s : Text) (skip : Nat) (prev : Option Char) (pos : Nat) (r : ReMatch),
      r ∈ finditerAux m skip prev pos s →
      pos ≤ r.start ∧ r.start < r.stop ∧ r.stop ≤ pos + s.length := by
  intro s
  induction s with
  | nil =>
    intro skip prev pos r hr
    simp [finditerAux] at hr
  | cons c rest ih =>
    intro skip prev pos r hr
    cases skip with
    | succ k =>
      have h2 := ih k (some c) (pos + 1) r (by simpa [finditerAux] using hr)
      refine ⟨by omega, h2.2.1, ?_⟩
      have := h2.2.2
      simp only [List.length_cons]
      omega
    | zero =>
      cases hL : m prev (pos == 0) (c :: rest) with
      | none =>
        rw [show finditerAux m 0 prev pos (c :: rest)
            = finditerAux m 0 (some c) (pos + 1) rest by
          simp [finditerAux, hL]] at hr
        have h2 := ih 0 (some c) (pos + 1) r hr
        refine ⟨by omega, h2.2.1, ?_⟩
        have := h2.2.2
        simp only [List.length_cons]
        omega
      | some L =>
        rw [show finditerAux m 0 prev pos (c :: rest)
            = { start := pos, stop := pos + L, text := (c :: rest).take L }
              :: finditerAux m (max L 1 - 1) (some c) (pos + 1) rest by
          simp [finditerAux, hL]] at hr
        rcases List.mem_cons.mp hr with rfl | hr
        · have hb := hm prev (pos == 0) (c :: rest) L hL
          have hb2 := hb.2
          have hb1 := hb.1
          simp only [List.length_cons] at hb2
          dsimp only
          refine ⟨le_refl _, by omega, ?_⟩
          simp only [List.length_cons]
          omega
        · have h2 := ih (max L 1 - 1) (some c) (pos + 1) r hr
          refine ⟨by omega, h2.2.1, ?_⟩
          have := h2.2.2
          simp only [List.length_cons]
          omega

theorem mSentence_bounds :
    ∀ p a s L, mSentence p a s = some L → 1 ≤ L ∧ L ≤ s.length := by
  intro p a s L h
  cases p with
  | none => simp [mSentence] at h
  | some c =>
    simp only [mSentence] at h
    split at h
    · by_cases hw : runLen isPySpace s = 0
      · simp [hw] at h
      · simp only [if_neg hw] at h
        injection h with h
        subst h
        exact ⟨by omega, runLen_le isPySpace s⟩
    · cases h

theorem lastGood_spec (potential : Text) :
    ∀ (l : List ReMatch) (sb : ReMatch), lastGood potential l = some sb →
      sb ∈ l ∧ count_words (potential.take sb.stop) ≤ SEG_MAX := by
  intro l
  induction l with
  | nil => intro sb h; cases h
  | cons a rest ih =>
    intro sb h
    unfold lastGood at h
    by_cases hc : count_words (potential.take a.stop) ≤ SEG_MAX
    · rw [if_pos hc] at h
      cases hrec : lastGood potential rest with
      | some m =>
        rw [hrec] at h
        injection h with h
        subst h
        have h2 := ih m hrec
        exact ⟨List.mem_cons_of_mem _ h2.1, h2.2⟩
      | none =>
        rw [hrec] at h
        injection h with h
        subst h
        exact ⟨List.mem_cons_self _ _, hc⟩
    · rw [if_neg hc] at h
      cases h

theorem forceSentenceBreak_spec (pos : Nat) (potential : Text) (fb : BreakPoint)
    (h : forceSentenceBreak pos potential = some fb) :
    ∃ e, fb.position = pos + e ∧ 1 ≤ e ∧ e ≤ potential.length ∧
      count_words (potential.take e) ≤ SEG_MAX := by
  unfold forceSentenceBreak at h
  cases hl : lastGood potential (finditer mSentence potential) with
  | none => rw [hl] at h; cases h
  | some sb =>
    rw [hl] at h
    injection h with h
    subst h
    have hspec := lastGood_spec potential _ sb hl
    have hb := finditerAux_bounds mSentence mSentence_bounds potential 0 none 0
      sb hspec.1
    refine ⟨sb.stop, rfl, by omega, by simpa using hb.2.2, hspec.2⟩

theorem wc_take_le_strip (S : Text) (e : Nat) (he : e ≤ (pyStrip S).length) :
    wcGo false (S.take e) ≤ wcGo false ((pyStrip S).take e) := by
  have hd : S = S.takeWhile isPySpace ++ S.dropWhile isPySpace :=
    (List.takeWhile_append_dropWhile _ _).symm
  have hP : pyStrip S
      = ((S.dropWhile isPySpace).reverse.dropWhile isPySpace).reverse := rfl
  have hRP : S.dropWhile isPySpace
      = pyStrip S ++ ((S.dropWhile isPySpace).reverse.takeWhile isPySpace).reverse := by
    rw [hP]
    exact strip_decomp (S.dropWhile isPySpace)
  have hAws : ∀ c ∈ S.takeWhile isPySpace, isPySpace c = true :=
    fun c hc => List.mem_takeWhile_imp hc
  by_cases hcase : e ≤ (S.takeWhile isPySpace).length
  · have hSe : S.take e = (S.takeWhile isPySpace).take e := by
      conv_lhs => rw [hd]
      rw [List.take_append_eq_append_take]
      have h0 : e - (S.takeWhile isPySpace).length = 0 := by omega
      rw [h0]
      simp
    rw [hSe]
    have hws : ∀ c ∈ (S.takeWhile isPySpace).take e, isPySpace c = true :=
      fun c hc => hAws c (List.take_subset _ _ hc)
    rw [wcGo_ws_only _ false hws]
    exact Nat.zero_le _
  · have hSe : S.take e
        = S.takeWhile isPySpace ++ (S.dropWhile isPySpace).take (e - (S.takeWhile isPySpace).length) := by
      conv_lhs => rw [hd]
      rw [List.take_append_eq_append_take]
      congr 1
      exact List.take_of_length_le (by omega)
    rw [hSe, wcGo_ws_append _ _ hAws]
    have hRe : (S.dropWhile isPySpace).take (e - (S.takeWhile isPySpace).length)
        = (pyStrip S).take (e - (S.takeWhile isPySpace).length) := by
      conv_lhs => rw [hRP]
      rw [List.take_append_eq_append_take]
      have h0 : (e - (S.takeWhile isPySpace).length) - (pyStrip S).length = 0 := by
        omega
      rw [h0]
      simp
    rw [hRe]
    have hTT : (pyStrip S).take (e - (S.takeWhile isPySpace).length)
        = ((pyStrip S).take e).take (e - (S.takeWhile isPySpace).length) := by
      rw [List.take_take]
      congr 1
      omega
    rw [hTT]
    exact wcGo_take_le _ _ _

theorem pySlice_take (t : Text) (pos b e : Nat)
    (hle : e ≤ (pySlice t pos b).length) :
    pySlice t pos (pos + e) = (pySlice t pos b).take e := by
  unfold pySlice
  rw [List.take_take]
  have h1 : e ≤ b - pos := by
    have h2 := hle
    simp only [pySlice, List.length_take] at h2
    omega
  have h2 : pos + e - pos = e := by omega
  rw [h2, Nat.min_eq_left h1]

theorem findSuitableTag_spec (t : Text) :
    ∀ (l : List BreakPoint) (pos : Nat) (bp : BreakPoint) (tag : Bool),
      findSuitableTag t pos l = some (bp, tag) →
      pos < bp.position ∧
      count_words (pyStrip (pySlice t pos bp.position)) ≤ SEG_MAX ∧
      (tag = true → SEG_MIN ≤ count_words (pyStrip (pySlice t pos bp.position))) := by
  intro l
  induction l with
  | nil => intro pos bp tag h; cases h
  | cons a rest ih =>
    intro pos bp tag h
    simp only [findSuitableTag] at h
    by_cases hle : a.position ≤ pos
    · rw [if_pos hle] at h
      exact ih pos bp tag h
    · rw [if_neg hle] at h
      by_cases hmin : SEG_MIN ≤ count_words (pyStrip (pySlice t pos a.position))
      · rw [if_pos hmin] at h
        by_cases hmax : count_words (pyStrip (pySlice t pos a.position)) ≤ SEG_MAX
        · rw [if_pos hmax] at h
          simp only [Option.some.injEq, Prod.mk.injEq] at h
          obtain ⟨rfl, rfl⟩ := h
          exact ⟨by omega, hmax, fun _ => hmin⟩
        · rw [if_neg hmax] at h
          cases hfb : forceSentenceBreak pos (pyStrip (pySlice t pos a.position)) with
          | some fb =>
            rw [hfb] at h
            simp only [Option.some.injEq, Prod.mk.injEq] at h
            obtain ⟨rfl, rfl⟩ := h
            obtain ⟨e, hpos, he1, heP, hwc⟩ :=
              forceSentenceBreak_spec pos (pyStrip (pySlice t pos a.position)) fb hfb
            have heS : e ≤ (pySlice t pos a.position).length :=
              le_trans heP (pyStrip_length_le _)
            have hsl : pySlice t pos fb.position
                = (pySlice t pos a.position).take e := by
              rw [hpos]
              exact pySlice_take t pos a.position e heS
            refine ⟨by omega, ?_, fun hcon => absurd hcon (by simp)⟩
            rw [count_words_strip, hsl, count_words_eq_wcGo]
            calc wcGo false ((pySlice t pos a.position).take e)
                ≤ wcGo false ((pyStrip (pySlice t pos a.position)).take e) :=
                  wc_take_le_strip _ e heP
              _ = count_words ((pyStrip (pySlice t pos a.position)).take e) :=
                  (count_words_eq_wcGo _).symm
              _ ≤ SEG_MAX := hwc
          | none =>
            rw [hfb] at h
            exact ih pos bp tag h
      · rw [if_neg hmin] at h
        exact ih pos bp tag h

theorem findSuitable_eq_tag (t : Text) :
    ∀ (l : List BreakPoint) (pos : Nat),
      findSuitable t pos l = (findSuitableTag t pos l).map Prod.fst := by
  intro l
  induction l with
  | nil => intro pos; rfl
  | cons a rest ih =>
    intro pos
    simp only [findSuitable, findSuitableTag]
    by_cases hle : a.position ≤ pos
    · rw [if_pos hle, if_pos hle]
      exact ih pos
    · rw [if_neg hle, if_neg hle]
      by_cases hmin : SEG_MIN ≤ count_words (pyStrip (pySlice t pos a.position))
      · rw [if_pos hmin, if_pos hmin]
        by_cases hmax : count_words (pyStrip (pySlice t pos a.position)) ≤ SEG_MAX
        · rw [if_pos hmax, if_pos hmax]
          rfl
        · rw [if_neg hmax, if_neg hmax]
          cases hfb : forceSentenceBreak pos (pyStrip (pySlice t pos a.position)) with
          | some fb => rfl
          | none => exact ih pos
      · rw [if_neg hmin, if_neg hmin]
        exact ih pos

theorem findSuitable_spec (t : Text) (l : List BreakPoint) (pos : Nat)
    (bp : BreakPoint) (h : findSuitable t pos l = some bp) :
    pos < bp.position ∧
    count_words (pyStrip (pySlice t pos bp.position)) ≤ SEG_MAX := by
  rw [findSuitable_eq_tag] at h
  cases htag : findSuitableTag t pos l with
  | none => rw [htag] at h; cases h
  | some p =>
    rw [htag] at h
    injection h with h
    subst h
    have h2 := findSuitableTag_spec t l pos p.1 p.2 (by rw [htag])
    exact ⟨h2.1, h2.2.1⟩

/-! ## Lemmas about the segmentation loop -/

theorem pySplit_words_valid (s : Text) :
    ∀ w ∈ pySplit s, w ≠ [] ∧ ∀ c ∈ w, isPySpace c = false := by
  intro w hw
  exact splitAux_mem s [] w (by simp) hw

theorem forcedSegmentText_wc_le (t : Text) (pos : Nat) :
    count_words (forcedSegmentText t pos) ≤ SEG_MAX := by
  unfold forcedSegmentText
  by_cases hw : (pySplit (t.drop pos)).length ≤ SEG_MAX
  · rw [if_pos hw, count_words_strip, count_words_eq_wcGo,
      ← pySplit_length_eq_wcGo]
    exact hw
  · rw [if_neg hw]
    have hcs : count_words (pyStrip (joinSpace ((pySplit (t.drop pos)).take SEG_MAX)))
        = ((pySplit (t.drop pos)).take SEG_MAX).length := by
      rw [count_words_strip, count_words_eq_wcGo]
      apply wcGo_joinSpace
      intro w hww
      exact pySplit_words_valid (t.drop pos) w (List.take_subset _ _ hww)
    have hlen : ((pySplit (t.drop pos)).take SEG_MAX).length ≤ SEG_MAX := by
      simp [List.length_take]
    by_cases hlp : 0 < rfindDot (pyStrip (joinSpace ((pySplit (t.drop pos)).take SEG_MAX)))
    · rw [if_pos hlp, count_words_strip, count_words_eq_wcGo]
      calc wcGo false ((pyStrip (joinSpace ((pySplit (t.drop pos)).take SEG_MAX))).take
              ((rfindDot (pyStrip (joinSpace ((pySplit (t.drop pos)).take SEG_MAX)))).toNat + 1))
          ≤ wcGo false (pyStrip (joinSpace ((pySplit (t.drop pos)).take SEG_MAX))) :=
            wcGo_take_le _ _ _
        _ = count_words (pyStrip (joinSpace ((pySplit (t.drop pos)).take SEG_MAX))) :=
            (count_words_eq_wcGo _).symm
        _ ≤ SEG_MAX := by rw [hcs]; exact hlen
    · rw [if_neg hlp]
      rw [hcs]
      exact hlen

theorem forcedSegmentText_nonspace (t : Text) (pos : Nat) :
    ∃ k, nonspace (t.drop pos) = nonspace (forcedSegmentText t pos) ++ k := by
  unfold forcedSegmentText
  by_cases hw : (pySplit (t.drop pos)).length ≤ SEG_MAX
  · rw [if_pos hw, nonspace_strip]
    exact ⟨[], by simp⟩
  · rw [if_neg hw]
    have hvalid : ∀ w ∈ (pySplit (t.drop pos)).take SEG_MAX, ∀ c ∈ w, isPySpace c = false := by
      intro w hww
      exact (pySplit_words_valid (t.drop pos) w (List.take_subset _ _ hww)).2
    have hcs : nonspace (pyStrip (joinSpace ((pySplit (t.drop pos)).take SEG_MAX)))
        = ((pySplit (t.drop pos)).take SEG_MAX).flatten := by
      rw [nonspace_strip]
      exact nonspace_joinSpace _ hvalid
    have hsplit : nonspace (t.drop pos)
        = ((pySplit (t.drop pos)).take SEG_MAX).flatten
            ++ ((pySplit (t.drop pos)).drop SEG_MAX).flatten := by
      rw [← List.flatten_append, List.take_append_drop, pySplit_flatten]
    by_cases hlp : 0 < rfindDot (pyStrip (joinSpace ((pySplit (t.drop pos)).take SEG_MAX)))
    · rw [if_pos hlp, nonspace_strip]
      set cs := pyStrip (joinSpace ((pySplit (t.drop pos)).take SEG_MAX)) with hcsdef
      set k1 := (rfindDot cs).toNat + 1 with hk1
      have hdecomp : nonspace cs = nonspace (cs.take k1) ++ nonspace (cs.drop k1) := by
        rw [← nonspace_append, List.take_append_drop]
      refine ⟨nonspace (cs.drop k1) ++ ((pySplit (t.drop pos)).drop SEG_MAX).flatten, ?_⟩
      rw [hsplit, ← hcs, hdecomp]
      simp [List.append_assoc]
    · rw [if_neg hlp]
      refine ⟨((pySplit (t.drop pos)).drop SEG_MAX).flatten, ?_⟩
      rw [hsplit, ← hcs]

theorem segLoop_eq_tag (t : Text) (br : List BreakPoint) :
    ∀ (fuel pos idx : Nat),
      segLoop t br fuel pos idx = (segLoopTag t br fuel pos idx).map Prod.fst := by
  intro fuel
  induction fuel with
  | zero => intro pos idx; rfl
  | succ n ih =>
    intro pos idx
    simp only [segLoop, segLoopTag]
    by_cases hp : pos < textLen t
    · rw [if_pos hp, if_pos hp, findSuitable_eq_tag]
      cases htag : findSuitableTag t pos br with
      | none =>
        simp only [Option.map]
        by_cases hcur : (forcedSegmentText t pos).isEmpty
        · rw [if_pos hcur, if_pos hcur]
          rfl
        · rw [if_neg hcur, if_neg hcur]
          rfl
      | some p =>
        simp only [Option.map]
        by_cases hcur : (pyStrip (pySlice t pos p.1.position)).isEmpty
        · rw [if_pos hcur, if_pos hcur]
          exact ih p.1.position idx
        · rw [if_neg hcur, if_neg hcur]
          simp [ih p.1.position (idx + 1)]
    · rw [if_neg hp, if_neg hp]
      rfl

theorem segLoop_wc_le (t : Text) (br : List BreakPoint) :
    ∀ (fuel pos idx : Nat) (s : Segment),
      s ∈ segLoop t br fuel pos idx → s.word_count ≤ SEG_MAX := by
  intro fuel
  induction fuel with
  | zero => intro pos idx s hs; simp [segLoop] at hs
  | succ n ih =>
    intro pos idx s hs
    simp only [segLoop] at hs
    by_cases hp : pos < textLen t
    · rw [if_pos hp] at hs
      cases hfs : findSuitable t pos br with
      | some sb =>
        rw [hfs] at hs
        simp only at hs
        by_cases hcur : (pyStrip (pySlice t pos sb.position)).isEmpty
        · rw [if_pos hcur] at hs
          exact ih sb.position idx s hs
        · rw [if_neg hcur] at hs
          rcases List.mem_cons.mp hs with rfl | hs
          · show count_words (pyStrip (pySlice t pos sb.position)) ≤ SEG_MAX
            exact (findSuitable_spec t br pos sb hfs).2
          · exact ih sb.position (idx + 1) s hs
      | none =>
        rw [hfs] at hs
        simp only at hs
        by_cases hcur : (forcedSegmentText t pos).isEmpty
        · rw [if_pos hcur] at hs
          simp at hs
        · rw [if_neg hcur] at hs
          rcases List.mem_singleton.mp hs with rfl
          show count_words (forcedSegmentText t pos) ≤ SEG_MAX
          exact forcedSegmentText_wc_le t pos
    · rw [if_neg hp] at hs
      simp at hs

theorem segLoopTag_direct_ge (t : Text) (br : List BreakPoint) :
    ∀ (fuel pos idx : Nat) (p : Segment × SegOrigin),
      p ∈ segLoopTag t br fuel pos idx → p.2 = SegOrigin.direct →
      SEG_MIN ≤ p.1.word_count := by
  intro fuel
  induction fuel with
  | zero => intro pos idx p hp _; simp [segLoopTag] at hp
  | succ n ih =>
    intro pos idx p hp htag
    simp only [segLoopTag] at hp
    by_cases hl : pos < textLen t
    · rw [if_pos hl] at hp
      cases hfs : findSuitableTag t pos br with
      | some sb =>
        rw [hfs] at hp
        simp only at hp
        by_cases hcur : (pyStrip (pySlice t pos sb.1.position)).isEmpty
        · rw [if_pos hcur] at hp
          exact ih sb.1.position idx p hp htag
        · rw [if_neg hcur] at hp
          rcases List.mem_cons.mp hp with rfl | hp
          · simp only at htag
            have hdir : sb.2 = true := by
              by_cases h2 : sb.2 <;> simp [h2] at htag ⊢
            have hspec := findSuitableTag_spec t br pos sb.1 sb.2
              (by rw [hfs])
            show SEG_MIN ≤ count_words (pyStrip (pySlice t pos sb.1.position))
            exact hspec.2.2 hdir
          · exact ih sb.1.position (idx + 1) p hp htag
      | none =>
        rw [hfs] at hp
        simp only at hp
        by_cases hcur : (forcedSegmentText t pos).isEmpty
        · rw [if_pos hcur] at hp
          simp at hp
        · rw [if_neg hcur] at hp
          rcases List.mem_singleton.mp hp with rfl
          simp at htag
    · rw [if_neg hl] at hp
      simp at hp

theorem segLoopTag_dropLast (t : Text) (br : List BreakPoint) :
    ∀ (fuel pos idx : Nat) (p : Segment × SegOrigin),
      p ∈ (segLoopTag t br fuel pos idx).dropLast →
      p.2 ≠ SegOrigin.forcedFinal := by
  intro fuel
  induction fuel with
  | zero => intro pos idx p hp; simp [segLoopTag] at hp
  | succ n ih =>
    intro pos idx p hp
    simp only [segLoopTag] at hp
    by_cases hl : pos < textLen t
    · rw [if_pos hl] at hp
      cases hfs : findSuitableTag t pos br with
      | some sb =>
        rw [hfs] at hp
        simp only at hp
        by_cases hcur : (pyStrip (pySlice t pos sb.1.position)).isEmpty
        · rw [if_pos hcur] at hp
          exact ih sb.1.position idx p hp
        · rw [if_neg hcur] at hp
          cases hrec : segLoopTag t br n sb.1.position (idx + 1) with
          | nil =>
            rw [hrec] at hp
            simp at hp
          | cons q rest =>
            rw [hrec, List.dropLast_cons₂] at hp
            rcases List.mem_cons.mp hp with rfl | hp
            · by_cases h2 : sb.2 <;> simp [h2]
            · rw [← hrec] at hp
              exact ih sb.1.position (idx + 1) p hp
      | none =>
        rw [hfs] at hp
        simp only at hp
        by_cases hcur : (forcedSegmentText t pos).isEmpty
        · rw [if_pos hcur] at hp
          simp at hp
        · rw [if_neg hcur] at hp
          simp at hp
    · rw [if_neg hl] at hp
      simp at hp

theorem segLoop_succ (t : Text) (br : List BreakPoint) (fuel pos idx : Nat) :
    segLoop t br (fuel + 1) pos idx =
      if pos < textLen t then
        match findSuitable t pos br with
        | some sb =>
          if (pyStrip (pySlice t pos sb.position)).isEmpty then
            segLoop t br fuel sb.position idx
          else
            create_segment (pyStrip (pySlice t pos sb.position)) idx
              :: segLoop t br fuel sb.position (idx + 1)
        | none =>
          if (forcedSegmentText t pos).isEmpty then []
          else [create_segment (forcedSegmentText t pos) idx]
      else [] := rfl

theorem segLoop_fuel_drop (t : Text) (br : List BreakPoint) :
    ∀ (fuel pos idx : Nat), textLen t < pos + fuel →
      segLoop t br (fuel + 1) pos idx = segLoop t br fuel pos idx := by
  intro fuel
  induction fuel with
  | zero =>
    intro pos idx h
    have hp : ¬pos < textLen t := by omega
    simp [segLoop, hp]
  | succ n ih =>
    intro pos idx h
    by_cases hp : pos < textLen t
    · rw [segLoop_succ t br (n + 1) pos idx, segLoop_succ t br n pos idx]
      rw [if_pos hp, if_pos hp]
      cases hfs : findSuitable t pos br with
      | some sb =>
        simp only
        have hlt := (findSuitable_spec t br pos sb hfs).1
        have hcond : textLen t < sb.position + n := by omega
        by_cases hcur : (pyStrip (pySlice t pos sb.position)).isEmpty
        · rw [if_pos hcur, if_pos hcur]
          exact ih sb.position idx hcond
        · rw [if_neg hcur, if_neg hcur]
          rw [ih sb.position (idx + 1) hcond]
      | none => rfl
    · simp [segLoop, hp]

theorem segLoop_fuel_ge (t : Text) (br : List BreakPoint) :
    ∀ (k : Nat), segLoop t br (textLen t + 1 + k) 0 0
      = segLoop t br (textLen t + 1) 0 0 := by
  intro k
  induction k with
  | zero => rfl
  | succ n ih =>
    have h1 : textLen t + 1 + (n + 1) = (textLen t + 1 + n) + 1 := by omega
    rw [h1, segLoop_fuel_drop t br (textLen t + 1 + n) 0 0 (by omega), ih]

theorem segLoop_nonspace (t : Text) (br : List BreakPoint) :
    ∀ (fuel pos idx : Nat), ∃ k,
      nonspace (t.drop pos)
        = nonspace (segContents (segLoop t br fuel pos idx)) ++ k := by
  intro fuel
  induction fuel with
  | zero =>
    intro pos idx
    exact ⟨nonspace (t.drop pos), by simp [segLoop, segContents, nonspace]⟩
  | succ n ih =>
    intro pos idx
    simp only [segLoop]
    by_cases hp : pos < textLen t
    · rw [if_pos hp]
      cases hfs : findSuitable t pos br with
      | some sb =>
        simp only
        have hlt := (findSuitable_spec t br pos sb hfs).1
        have hdd : (t.drop pos).drop (sb.position - pos) = t.drop sb.position := by
          rw [List.drop_drop]
          congr 1
          omega
        have hdecomp : t.drop pos = pySlice t pos sb.position ++ t.drop sb.position := by
          conv_lhs => rw [← List.take_append_drop (sb.position - pos) (t.drop pos)]
          rw [hdd]
          rfl
        by_cases hcur : (pyStrip (pySlice t pos sb.position)).isEmpty
        · rw [if_pos hcur]
          obtain ⟨k, hk⟩ := ih sb.position idx
          refine ⟨k, ?_⟩
          have hslice : nonspace (pySlice t pos sb.position) = [] := by
            rw [← nonspace_strip]
            rw [List.isEmpty_iff] at hcur
            rw [hcur]
            rfl
          rw [hdecomp, nonspace_append, hslice, hk]
          simp
        · rw [if_neg hcur]
          obtain ⟨k, hk⟩ := ih sb.position (idx + 1)
          refine ⟨k, ?_⟩
          have hcontents : segContents (create_segment (pyStrip (pySlice t pos sb.position)) idx
              :: segLoop t br n sb.position (idx + 1))
              = pyStrip (pySlice t pos sb.position)
                  ++ segContents (segLoop t br n sb.position (idx + 1)) := by
            simp [segContents, create_segment]
          rw [hcontents, nonspace_append, nonspace_strip]
          rw [hdecomp, nonspace_append, hk]
          simp [List.append_assoc]
      | none =>
        simp only
        by_cases hcur : (forcedSegmentText t pos).isEmpty
        · rw [if_pos hcur]
          exact ⟨nonspace (t.drop pos), by simp [segContents, nonspace]⟩
        · rw [if_neg hcur]
          obtain ⟨k, hk⟩ := forcedSegmentText_nonspace t pos
          refine ⟨k, ?_⟩
          rw [hk]
          congr 1
          simp [segContents, create_segment]
    · rw [if_neg hp]
      refine ⟨[], ?_⟩
      have h2 : textLen t ≤ pos := by omega
      rw [textLen_eq] at h2
      have hnil : t.drop pos = [] := List.drop_eq_nil_of_le h2
      rw [hnil]
      simp [segContents, nonspace]

theorem findSuitable_relabel (t : Text) (f : BreakPoint → String) :
    ∀ (l : List BreakPoint) (pos : Nat),
      (findSuitable t pos (l.map (relabelBp f))).map (fun b => b.position)
        = (findSuitable t pos l).map (fun b => b.position) := by
  intro l
  induction l with
  | nil => intro pos; rfl
  | cons a rest ih =>
    intro pos
    simp only [List.map_cons, findSuitable]
    have hpos : (relabelBp f a).position = a.position := rfl
    rw [hpos]
    by_cases hle : a.position ≤ pos
    · rw [if_pos hle, if_pos hle]
      exact ih pos
    · rw [if_neg hle, if_neg hle]
      by_cases hmin : SEG_MIN ≤ count_words (pyStrip (pySlice t pos a.position))
      · rw [if_pos hmin, if_pos hmin]
        by_cases hmax : count_words (pyStrip (pySlice t pos a.position)) ≤ SEG_MAX
        · rw [if_pos hmax, if_pos hmax]
          rfl
        · rw [if_neg hmax, if_neg hmax]
          cases hfb : forceSentenceBreak pos (pyStrip (pySlice t pos a.position)) with
          | some fb => rfl
          | none => exact ih pos
      · rw [if_neg hmin, if_neg hmin]
        exact ih pos

theorem segLoop_relabel (t : Text) (f : BreakPoint → String) (br : List BreakPoint) :
    ∀ (fuel pos idx : Nat),
      segLoop t (br.map (relabelBp f)) fuel pos idx = segLoop t br fuel pos idx := by
  intro fuel
  induction fuel with
  | zero => intro pos idx; rfl
  | succ n ih =>
    intro pos idx
    rw [segLoop_succ, segLoop_succ]
    by_cases hp : pos < textLen t
    · rw [if_pos hp, if_pos hp]
      have hrel := findSuitable_relabel t f br pos
      cases hfs : findSuitable t pos br with
      | none =>
        have hx : findSuitable t pos (br.map (relabelBp f)) = none := by
          rw [hfs] at hrel
          cases hx2 : findSuitable t pos (br.map (relabelBp f))
          · rfl
          · rw [hx2] at hrel
            simp at hrel
        rw [hx]
      | some sb =>
        rw [hfs] at hrel
        cases hx : findSuitable t pos (br.map (relabelBp f)) with
        | none =>
          rw [hx] at hrel
          simp at hrel
        | some sb2 =>
          rw [hx] at hrel
          simp only [Option.map] at hrel
          injection hrel with hrel
          simp only
          rw [hrel]
          by_cases hcur : (pyStrip (pySlice t pos sb.position)).isEmpty
          · rw [if_pos hcur, if_pos hcur]
            exact ih sb.position idx
          · rw [if_neg hcur, if_neg hcur]
            rw [ih sb.position (idx + 1)]
    · rw [if_neg hp, if_neg hp]

theorem findSuitable_none_iff (t : Text) :
    ∀ (l : List BreakPoint) (pos : Nat),
      findSuitable t pos l = none ↔
        ∀ bp ∈ l, bp.position ≤ pos ∨
          count_words (pyStrip (pySlice t pos bp.position)) < SEG_MIN ∨
          (SEG_MAX < count_words (pyStrip (pySlice t pos bp.position)) ∧
            forceSentenceBreak pos (pyStrip (pySlice t pos bp.position)) = none) := by
  intro l
  induction l with
  | nil => intro pos; simp [findSuitable]
  | cons a rest ih =>
    intro pos
    simp only [findSuitable]
    rw [List.forall_mem_cons]
    by_cases hle : a.position ≤ pos
    · rw [if_pos hle, ih pos]
      constructor
      · intro h
        exact ⟨Or.inl hle, h⟩
      · intro h
        exact h.2
    · rw [if_neg hle]
      by_cases hmin : SEG_MIN ≤ count_words (pyStrip (pySlice t pos a.position))
      · rw [if_pos hmin]
        by_cases hmax : count_words (pyStrip (pySlice t pos a.position)) ≤ SEG_MAX
        · rw [if_pos hmax]
          constructor
          · intro h
            cases h
          · intro h
            rcases h.1 with h1 | h1 | h1
            · exact absurd h1 hle
            · omega
            · exact absurd h1.1 (by omega)
        · rw [if_neg hmax]
          cases hfb : forceSentenceBreak pos (pyStrip (pySlice t pos a.position)) with
          | some fb =>
            constructor
            · intro h
              cases h
            · intro h
              rcases h.1 with h1 | h1 | h1
              · exact absurd h1 hle
              · omega
              · cases h1.2
          | none =>
            rw [ih pos]
            constructor
            · intro h
              exact ⟨Or.inr (Or.inr ⟨by omega, rfl⟩), h⟩
            · intro h
              exact h.2
      · rw [if_neg hmin, ih pos]
        constructor
        · intro h
          exact ⟨Or.inr (Or.inl (by omega)), h⟩
        · intro h
          exact h.2

/-! # Claim theorems -/

/-- Claim C1 (amended): the segments returned by segment_transcript are an
ordered sequence of contiguous pieces whose concatenation, modulo
whitespace normalization, reconstructs a prefix of the input transcript:
the non-whitespace characters of the concatenated segments are an initial
run of the non-whitespace characters of T.  The original claim
("reconstructs T in full") fails: when no suitable break exists and more
than MAX words remain, the final forced branch keeps only the first MAX
words (cut back to the last period) and discards the rest of T. -/
theorem claim_c1_amended (t : Text) : ∃ k,
    nonspace t = nonspace (segContents (segment_transcript t)) ++ k := by
  have h := segLoop_nonspace t (find_natural_breaks t) (textLen t + 1) 0 0
  simpa [segment_transcript] using h

/-- Claim C1 counterexample: on a 1606-word transcript with a sentence break
after word 5 and no other break markers, segment_transcript returns a
single 5-word segment, so the concatenation does not reconstruct the input
even modulo whitespace. -/
theorem claim_c1_counterexample :
    nonspace (segContents (segment_transcript exTallNoBreaks))
      ≠ nonspace exTallNoBreaks := by
  intro h
  have hlen := congrArg List.length h
  rw [nsLen_eq, nsLen_eq] at hlen
  have h1 : nsLen (segContents (segment_transcript exTallNoBreaks)) = 6 := by
    decide
  have h2 : nsLen exTallNoBreaks = 1607 := by
    decide
  omega

/-- Claim C2: every segment returned by segment_transcript has word count at
most SEGMENT_SIZE["MAX"] = 1500.  This holds unconditionally — the
oversized-atomic-unit exception in the claim is never needed, because the
fallback hard-truncates instead of emitting an oversized segment. -/
theorem claim_c2 (t : Text) (s : Segment) (hs : s ∈ segment_transcript t) :
    s.word_count ≤ 1500 := by
  have h := segLoop_wc_le t (find_natural_breaks t) (textLen t + 1) 0 0 s hs
  have hmax : SEG_MAX = 1500 := rfl
  omega

/-- Witness for C2 at the concrete transcript "hi there". -/
theorem claim_c2_witness :
    create_segment "hi there".toList 0 ∈ segment_transcript "hi there".toList ∧
    (create_segment "hi there".toList 0).word_count ≤ 1500 :=
  ⟨by decide,
   claim_c2 "hi there".toList (create_segment "hi there".toList 0) (by decide)⟩

/-- Claim C3 (amended): erasing the origin tags of the instrumented
segmenter yields segment_transcript; every segment taken directly at a
suitable break has word count ≥ SEGMENT_SIZE["MIN"] = 1000; and every
non-final segment comes from a suitable break (directly or via the
oversize sentence truncation), never from the final forced branch.  The
original claim fails: a segment produced by the oversize sentence
truncation can have word count below the minimum while not being the
final segment. -/
theorem claim_c3_amended (t : Text) :
    segment_transcript t = (segment_transcript_tagged t).map Prod.fst ∧
    (∀ p ∈ segment_transcript_tagged t, p.2 = SegOrigin.direct →
      1000 ≤ p.1.word_count) ∧
    (∀ p ∈ (segment_transcript_tagged t).dropLast,
      p.2 ≠ SegOrigin.forcedFinal) := by
  refine ⟨?_, ?_, ?_⟩
  · exact segLoop_eq_tag t (find_natural_breaks t) (textLen t + 1) 0 0
  · intro p hp htag
    have h := segLoopTag_direct_ge t (find_natural_breaks t)
      (textLen t + 1) 0 0 p hp htag
    have hmin : SEG_MIN = 1000 := rfl
    omega
  · intro p hp
    exact segLoopTag_dropLast t (find_natural_breaks t)
      (textLen t + 1) 0 0 p hp

/-- Claim C3 counterexample: on a transcript whose first qualifying chunk
overflows MAX and gets truncated at the sentence boundary after word 5,
segment_transcript returns a 5-word segment followed by a 1500-word
segment: a non-final segment with word count 5 < 1000. -/
theorem claim_c3_counterexample :
    (segment_transcript exTruncThenMore).map (fun s => s.word_count)
      = [5, 1500] ∧ (5 : Nat) < 1000 :=
  ⟨by decide, by decide⟩

/-- Witness for C3 (amended) at a concrete transcript whose first segment is
taken directly at a suitable break: the theorem gives it at least 1000
words. -/
theorem claim_c3_witness :
    1000 ≤ ((segment_transcript_tagged exWeakBeforeStrong).map
      (fun p => p.1.word_count)).headD 0 := by
  have htags : (segment_transcript_tagged exWeakBeforeStrong).map (fun p => p.2)
      = [SegOrigin.direct, SegOrigin.forcedFinal] := by decide
  cases h : segment_transcript_tagged exWeakBeforeStrong with
  | nil =>
    rw [h] at htags
    cases htags
  | cons p rest =>
    rw [h] at htags
    simp only [List.map_cons, List.cons.injEq] at htags
    have hmem : p ∈ segment_transcript_tagged exWeakBeforeStrong := by
      rw [h]
      exact List.mem_cons_self _ _
    have hge := (claim_c3_amended exWeakBeforeStrong).2.1 p hmem htags.1
    simpa using hge

/-- Claim C4: should_segment classifies by word count against the fixed
thresholds: ≤ 1500 SHORT (no segmentation), ≤ 4000 MEDIUM (not segmented),
> 4000 LONG (segmented); needs_segmentation holds exactly above 4000. -/
theorem claim_c4 (t : Text) :
    (should_segment t).word_count = count_words t ∧
    (count_words t ≤ 1500 →
      (should_segment t).category = "SHORT" ∧
      (should_segment t).needs_segmentation = false) ∧
    (1500 < count_words t → count_words t ≤ 4000 →
      (should_segment t).category = "MEDIUM" ∧
      (should_segment t).needs_segmentation = false) ∧
    (4000 < count_words t →
      (should_segment t).category = "LONG" ∧
      (should_segment t).needs_segmentation = true) ∧
    ((should_segment t).needs_segmentation = true ↔ 4000 < count_words t) := by
  have hS : getThreshold "SHORT" = 1500 := rfl
  have hM : getThreshold "MEDIUM" = 4000 := rfl
  by_cases h1 : count_words t ≤ 1500
  · have hcond : count_words t ≤ getThreshold "SHORT" := by rw [hS]; exact h1
    simp only [should_segment, hcond, if_true]
    refine ⟨by simp, fun _ => by simp, fun ha _ => absurd ha (by omega),
      fun ha => absurd ha (by omega), ?_⟩
    constructor
    · intro h
      exact absurd h (by simp)
    · intro h
      omega
  · have hcond : ¬count_words t ≤ getThreshold "SHORT" := by rw [hS]; exact h1
    by_cases h2 : count_words t ≤ 4000
    · have hcond2 : count_words t ≤ getThreshold "MEDIUM" := by rw [hM]; exact h2
      simp only [should_segment, hcond, if_false, hcond2, if_true]
      refine ⟨by simp, fun ha => absurd ha (by omega), fun _ _ => by simp,
        fun ha => absurd ha (by omega), ?_⟩
      constructor
      · intro h
        exact absurd h (by simp)
      · intro h
        omega
    · have hcond2 : ¬count_words t ≤ getThreshold "MEDIUM" := by rw [hM]; exact h2
      simp only [should_segment, hcond, if_false, hcond2]
      refine ⟨by simp, fun ha => absurd ha (by omega),
        fun _ hb => absurd hb (by omega), fun _ => by simp, ?_⟩
      constructor
      · intro _
        omega
      · intro _
        simp

/-- Witness for C4 at the concrete transcript "a b c". -/
theorem claim_c4_witness :
    (should_segment "a b c".toList).category = "SHORT" ∧
    (should_segment "a b c".toList).needs_segmentation = false :=
  (claim_c4 "a b c".toList).2.1 (by decide)

/-- Claim C5 (amended): split-point selection is strength-blind — relabeling
every break's strength arbitrarily leaves the produced segments unchanged,
because the loop takes the first break in position order whose stripped
slice fits the size window — and the hard word-count fallback runs exactly
when no break of any strength qualifies (every break is at or before the
current position, or under MIN words, or over MAX with the sentence
truncation failing).  The original claim fails: strong markers are not
preferred over medium or weak ones. -/
theorem claim_c5_amended (t : Text) (f : BreakPoint → String) :
    (∀ fuel pos idx,
      segLoop t ((find_natural_breaks t).map (relabelBp f)) fuel pos idx
        = segLoop t (find_natural_breaks t) fuel pos idx) ∧
    (∀ pos, findSuitable t pos (find_natural_breaks t) = none ↔
      ∀ bp ∈ find_natural_breaks t, bp.position ≤ pos ∨
        count_words (pyStrip (pySlice t pos bp.position)) < SEG_MIN ∨
        (SEG_MAX < count_words (pyStrip (pySlice t pos bp.position)) ∧
          forceSentenceBreak pos (pyStrip (pySlice t pos bp.position)) = none)) :=
  ⟨fun fuel pos idx => segLoop_relabel t f (find_natural_breaks t) fuel pos idx,
   fun pos => findSuitable_none_iff t (find_natural_breaks t) pos⟩

/-- Claim C5 counterexample: in exWeakBeforeStrong both the weak sentence
break at position 2000 (1000 words) and the strong paragraph break at
position 2101 (1050 words) yield a segment within [MIN, MAX], yet the
segmenter splits at the weak break (the earlier position), not the strong
one. -/
theorem claim_c5_counterexample :
    BreakPoint.mk 2101 "strong" ['\n', '\n'] ∈ find_natural_breaks exWeakBeforeStrong ∧
    1000 ≤ count_words (pyStrip (pySlice exWeakBeforeStrong 0 2101)) ∧
    count_words (pyStrip (pySlice exWeakBeforeStrong 0 2101)) ≤ 1500 ∧
    count_words (pyStrip (pySlice exWeakBeforeStrong 0 2101)) = 1050 ∧
    (segment_transcript exWeakBeforeStrong).map (fun s => s.word_count)
      = [1000, 51] := by
  refine ⟨by decide, by decide, by decide, by decide, by decide⟩

/-- Witness for C5 (amended) at the concrete transcript "hi". -/
theorem claim_c5_witness :
    segLoop "hi".toList
        ((find_natural_breaks "hi".toList).map (relabelBp (fun _ => "s"))) 3 0 0
      = segLoop "hi".toList (find_natural_breaks "hi".toList) 3 0 0 ∧
    ∀ bp ∈ find_natural_breaks "hi".toList, bp.position ≤ 0 ∨
      count_words (pyStrip (pySlice "hi".toList 0 bp.position)) < SEG_MIN ∨
      (SEG_MAX < count_words (pyStrip (pySlice "hi".toList 0 bp.position)) ∧
        forceSentenceBreak 0 (pyStrip (pySlice "hi".toList 0 bp.position)) = none) :=
  ⟨(claim_c5_amended "hi".toList (fun _ => "s")).1 3 0 0,
   ((claim_c5_amended "hi".toList (fun _ => "s")).2 0).mp (by decide)⟩

/-- Claim C10: segment_transcript terminates — every break the selection
loop returns lies strictly past the current position, so each iteration
strictly increases the position, and the loop's result is independent of
any fuel beyond length + 1. -/
theorem claim_c10 (t : Text) :
    (∀ pos bp, findSuitable t pos (find_natural_breaks t) = some bp →
      pos < bp.position) ∧
    (∀ k, segLoop t (find_natural_breaks t) (textLen t + 1 + k) 0 0
      = segment_transcript t) :=
  ⟨fun pos bp h => (findSuitable_spec t (find_natural_breaks t) pos bp h).1,
   fun k => segLoop_fuel_ge t (find_natural_breaks t) k⟩

/-- Witness for C10: the selected break of exWeakBeforeStrong at position 0
lies strictly past 0, and extra fuel does not change the result on "hi". -/
theorem claim_c10_witness :
    0 < (BreakPoint.mk 2000 "weak" [' ']).position ∧
    segLoop "hi".toList (find_natural_breaks "hi".toList)
        (textLen "hi".toList + 1 + 4) 0 0
      = segment_transcript "hi".toList :=
  ⟨(claim_c10 exWeakBeforeStrong).1 0 (BreakPoint.mk 2000 "weak" [' '])
    (by decide),
   (claim_c10 "hi".toList).2 4⟩

/-! # Classifier claims -/

theorem mem_of_containsStr (l : List String) (s : String)
    (h : l.contains s = true) : s ∈ l := by
  simpa using h

theorem jget_jset_same (fs : List (String × Jval)) (k : String) (v : Jval) :
    jget (jset fs k v) k = some v := by
  induction fs with
  | nil => simp [jset, jget]
  | cons p rest ih =>
    obtain ⟨k2, v2⟩ := p
    by_cases h : k2 = k
    · simp [jset, h, jget]
    · simp [jset, h, jget, ih]

theorem jget_jset_other (fs : List (String × Jval)) (k k2 : String)
    (v : Jval) (h : k2 ≠ k) : jget (jset fs k v) k2 = jget fs k2 := by
  induction fs with
  | nil => simp [jset, jget, Ne.symm h]
  | cons p rest ih =>
    obtain ⟨ka, va⟩ := p
    by_cases hk : ka = k
    · subst hk
      simp [jset, jget, Ne.symm h]
    · simp [jset, hk, jget, ih]

theorem isValidType_shape (o : Option Jval) (h : isValidType o = true) :
    ∃ s, o = some (Jval.jstr s) ∧ s ∈ valid_types := by
  cases o with
  | none => exact Bool.noConfusion h
  | some w =>
    cases w with
    | jstr s => exact ⟨s, rfl, mem_of_containsStr _ _ h⟩
    | jnull => exact Bool.noConfusion h
    | jbool b => exact Bool.noConfusion h
    | jnum n => exact Bool.noConfusion h
    | jarr es => exact Bool.noConfusion h
    | jobj fls => exact Bool.noConfusion h

theorem isValidConf_shape (o : Option Jval) (h : isValidConf o = true) :
    ∃ s, o = some (Jval.jstr s) ∧ s ∈ valid_confidence := by
  cases o with
  | none => exact Bool.noConfusion h
  | some w =>
    cases w with
    | jstr s => exact ⟨s, rfl, mem_of_containsStr _ _ h⟩
    | jnull => exact Bool.noConfusion h
    | jbool b => exact Bool.noConfusion h
    | jnum n => exact Bool.noConfusion h
    | jarr es => exact Bool.noConfusion h
    | jobj fls => exact Bool.noConfusion h

theorem validate_classification_spec (parse : String → Option Jval)
    (raw : String) (v : Jval)
    (hv : validate_classification parse raw = some v) :
    ∃ fields, v = Jval.jobj fields ∧
      (∃ ty, jget fields "type" = some (Jval.jstr ty) ∧ ty ∈ valid_types) ∧
      (∃ cf, jget fields "confidence" = some (Jval.jstr cf) ∧
        cf ∈ valid_confidence) := by
  cases hp : parse raw with
  | none => simp [validate_classification, hp] at hv
  | some w =>
    cases w with
    | jnull => simp [validate_classification, hp] at hv
    | jbool b => simp [validate_classification, hp] at hv
    | jnum n => simp [validate_classification, hp] at hv
    | jstr s => simp [validate_classification, hp] at hv
    | jarr es => simp [validate_classification, hp] at hv
    | jobj fields =>
      simp only [validate_classification, hp] at hv
      by_cases h1 : (jget fields "type").isNone = true
      · rw [if_pos h1] at hv; exact Option.noConfusion hv
      rw [if_neg h1] at hv
      by_cases h2 : (jget fields "confidence").isNone = true
      · rw [if_pos h2] at hv; exact Option.noConfusion hv
      rw [if_neg h2] at hv
      by_cases h3 : (jget fields "reason").isNone = true
      · rw [if_pos h3] at hv; exact Option.noConfusion hv
      rw [if_neg h3] at hv
      by_cases hT : isValidType (jget fields "type") = true
      · simp only [hT, if_true] at hv
        obtain ⟨ty, hty, htym⟩ := isValidType_shape _ hT
        by_cases hC : isValidConf (jget fields "confidence") = true
        · simp only [hC, if_true] at hv
          obtain ⟨cf, hcf, hcfm⟩ := isValidConf_shape _ hC
          obtain rfl := Option.some.inj hv
          exact ⟨fields, rfl, ⟨ty, hty, htym⟩, ⟨cf, hcf, hcfm⟩⟩
        · simp only [hC, Bool.false_eq_true, if_false] at hv
          obtain rfl := Option.some.inj hv
          refine ⟨jset fields "confidence" (Jval.jstr "medium"), rfl,
            ⟨ty, ?_, htym⟩,
            ⟨"medium", jget_jset_same _ _ _, by decide⟩⟩
          rw [jget_jset_other fields "confidence" "type" _ (by decide)]
          exact hty
      · simp only [hT, Bool.false_eq_true, if_false] at hv
        have hq : jget (jset fields "type" (Jval.jstr "General Content"))
            "confidence" = jget fields "confidence" :=
          jget_jset_other fields "type" "confidence" _ (by decide)
        rw [hq] at hv
        by_cases hC : isValidConf (jget fields "confidence") = true
        · simp only [hC, if_true] at hv
          obtain ⟨cf, hcf, hcfm⟩ := isValidConf_shape _ hC
          obtain rfl := Option.some.inj hv
          refine ⟨jset fields "type" (Jval.jstr "General Content"), rfl,
            ⟨"General Content", jget_jset_same _ _ _, by decide⟩,
            ⟨cf, ?_, hcfm⟩⟩
          rw [hq]; exact hcf
        · simp only [hC, Bool.false_eq_true, if_false] at hv
          obtain rfl := Option.some.inj hv
          refine ⟨jset (jset fields "type" (Jval.jstr "General Content"))
              "confidence" (Jval.jstr "medium"), rfl,
            ⟨"General Content", ?_, by decide⟩,
            ⟨"medium", jget_jset_same _ _ _, by decide⟩⟩
          rw [jget_jset_other _ "confidence" "type" _ (by decide)]
          exact jget_jset_same _ _ _

theorem classify_fallback_spec (parse : String → Option Jval)
    (ollama : Except String String) :
    ∃ fields, classify_fallback parse ollama = Jval.jobj fields ∧
      ∃ ty, jget fields "type" = some (Jval.jstr ty) ∧ ty ∈ valid_types := by
  have hdef : ∀ r : String, ∃ fields,
      default_classification r = Jval.jobj fields ∧
      ∃ ty, jget fields "type" = some (Jval.jstr ty) ∧ ty ∈ valid_types :=
    fun r => ⟨_, rfl, "General Content", by simp [jget], by decide⟩
  unfold classify_fallback
  cases ollama with
  | error e => exact hdef _
  | ok raw =>
    dsimp only
    by_cases hr : raw = ""
    · rw [if_pos hr]; exact hdef _
    · rw [if_neg hr]
      cases hval : validate_classification parse raw with
      | none => exact hdef _
      | some c =>
        obtain ⟨f, hf, hty, _⟩ := validate_classification_spec parse raw c hval
        exact ⟨f, hf, hty⟩

theorem classify_content_val_spec (parse : String → Option Jval)
    (openai ollama : Except String String) :
    ∃ fields, classify_content_val parse openai ollama = Jval.jobj fields ∧
      ∃ ty, jget fields "type" = some (Jval.jstr ty) ∧ ty ∈ valid_types := by
  unfold classify_content_val
  cases openai with
  | error e => exact classify_fallback_spec parse ollama
  | ok raw =>
    dsimp only
    cases hval : validate_classification parse raw with
    | none => exact classify_fallback_spec parse ollama
    | some c =>
      obtain ⟨f, hf, hty, _⟩ := validate_classification_spec parse raw c hval
      exact ⟨f, hf, hty⟩

/-- Claim C6: for every raw model output, validate_classification returns
either none or a dict whose "type" field is one of the four fixed
categories and whose "confidence" field is one of high/medium/low; and
classify_content always returns the JSON dump of a dict whose "type" field
is one of the four fixed categories. -/
theorem claim_c6 (parse : String → Option Jval) (raw : String)
    (openai ollama : Except String String) :
    (∀ v, validate_classification parse raw = some v →
      ∃ fields, v = Jval.jobj fields ∧
        (∃ ty, jget fields "type" = some (Jval.jstr ty) ∧ ty ∈ valid_types) ∧
        (∃ cf, jget fields "confidence" = some (Jval.jstr cf) ∧
          cf ∈ valid_confidence)) ∧
    (∃ fields, classify_content parse openai ollama
        = jdumps (Jval.jobj fields) ∧
      ∃ ty, jget fields "type" = some (Jval.jstr ty) ∧ ty ∈ valid_types) := by
  constructor
  · exact fun v hv => validate_classification_spec parse raw v hv
  · obtain ⟨f, hf, hty⟩ := classify_content_val_spec parse openai ollama
    exact ⟨f, congrArg jdumps hf, hty⟩

/-- Witness for C6: a parsed dict with a valid type and the invalid
confidence "HIGH" is validated to the same dict with confidence coerced to
"medium". -/
theorem claim_c6_witness :
    ∃ fields,
      Jval.jobj [("type", Jval.jstr "Podcast/Discussion"),
                 ("confidence", Jval.jstr "medium"),
                 ("reason", Jval.jnull)] = Jval.jobj fields ∧
      (∃ ty, jget fields "type" = some (Jval.jstr ty) ∧ ty ∈ valid_types) ∧
      (∃ cf, jget fields "confidence" = some (Jval.jstr cf) ∧
        cf ∈ valid_confidence) :=
  (claim_c6
      (fun _ => some (Jval.jobj
        [("type", Jval.jstr "Podcast/Discussion"),
         ("confidence", Jval.jstr "HIGH"),
         ("reason", Jval.jnull)]))
      "raw" (Except.error "down") (Except.error "down")).1
    (Jval.jobj [("type", Jval.jstr "Podcast/Discussion"),
                ("confidence", Jval.jstr "medium"),
                ("reason", Jval.jnull)])
    (by rfl)

/-- Claim C7 (amended): every node is total; transcriber_node,
segmenter_node and summarizer_node return their error string together with
default output values on every failure path, but classifier_node carries
an error only for a missing transcript — an internal LLM failure is
swallowed into a default classification with error none. -/
theorem claim_c7_amended
    (api : String → Except String (List String)) (url : Option String)
    (parse : String → Option Jval) (o l : Except String String)
    (tr : Option String) (t : Option Text)
    (sparse : String → Option Jval) (so sl : String → Except String String)
    (st : SummarizerState) :
    ((transcriber_node api url).error ≠ none →
      (transcriber_node api url).transcript = none) ∧
    ((classifier_node parse o l tr).error ≠ none →
      (classifier_node parse o l tr).classification
        = jdumps (default_classification "No transcript provided")) ∧
    ((segmenter_node t).error ≠ none →
      (segmenter_node t).segmentation_info = none ∧
      (segmenter_node t).needs_segmentation = false ∧
      (segmenter_node t).segments = none) ∧
    (st.segments = none → st.transcript = none →
      summarizer_node sparse so sl st
        = { error := some "No valid content provided for summarization",
            summaries := [] }) ∧
    ((classifier_node parse o l tr).error = none ∨
      (classifier_node parse o l tr).error = some "No transcript provided") := by
  refine ⟨?_, ?_, ?_, ?_, ?_⟩
  · intro herr
    unfold transcriber_node at herr ⊢
    by_cases hu : url.getD "" = ""
    · simp [hu]
    · simp only [hu, if_false] at herr ⊢
      cases hv : get_video_id (url.getD "") with
      | error e => simp [hv]
      | ok vid =>
        simp only [hv] at herr ⊢
        cases ha : api vid with
        | error e2 => simp [ha]
        | ok items => simp [ha] at herr
  · intro herr
    unfold classifier_node at herr ⊢
    by_cases htr : tr.getD "" = ""
    · simp [htr]
    · simp [htr] at herr
  · intro herr
    unfold segmenter_node at herr ⊢
    cases t with
    | none => exact ⟨rfl, rfl, rfl⟩
    | some tt =>
      by_cases he : tt.isEmpty = true
      · simp [he]
      · exfalso
        apply herr
        by_cases hn : (should_segment tt).needs_segmentation = true
        · simp [he, hn]
        · simp [he, hn]
  · intro hseg htr
    unfold summarizer_node
    rw [hseg, htr]
  · unfold classifier_node
    by_cases htr : tr.getD "" = ""
    · right; simp [htr]
    · left; simp [htr]

/-- Counterexample for C7 as stated: with a valid transcript and both
LLM backends failing (an internal failure), classifier_node returns error
none — no "error" string — while the classification silently falls back to
the default General Content dict built from the Ollama failure. -/
theorem claim_c7_counterexample :
    (classifier_node (fun _ => none) (Except.error "OpenAI down")
        (Except.error "Ollama down") (some "transcript text")).error = none ∧
    (classifier_node (fun _ => none) (Except.error "OpenAI down")
        (Except.error "Ollama down") (some "transcript text")).classification
      = jdumps (default_classification "Classification error: Ollama down") :=
  ⟨rfl, rfl⟩

/-- Witness for C7 (amended): the four failure-path conclusions at
concrete inputs with missing url/transcript/segments. -/
theorem claim_c7_witness :
    (transcriber_node (fun _ => Except.ok ["x"]) none).transcript = none ∧
    (classifier_node (fun _ => none) (Except.ok "r") (Except.ok "r")
        none).classification
      = jdumps (default_classification "No transcript provided") ∧
    ((segmenter_node none).segmentation_info = none ∧
      (segmenter_node none).needs_segmentation = false ∧
      (segmenter_node none).segments = none) ∧
    summarizer_node (fun _ => none) (fun _ => Except.ok "s")
        (fun _ => Except.ok "s") ⟨none, none, none⟩
      = { error := some "No valid content provided for summarization",
          summaries := [] } :=
  ⟨(claim_c7_amended (fun _ => Except.ok ["x"]) none (fun _ => none)
      (Except.ok "r") (Except.ok "r") none none (fun _ => none)
      (fun _ => Except.ok "s") (fun _ => Except.ok "s") ⟨none, none, none⟩).1
    (by decide),
   (claim_c7_amended (fun _ => Except.ok ["x"]) none (fun _ => none)
      (Except.ok "r") (Except.ok "r") none none (fun _ => none)
      (fun _ => Except.ok "s") (fun _ => Except.ok "s") ⟨none, none, none⟩).2.1
    (by decide),
   (claim_c7_amended (fun _ => Except.ok ["x"]) none (fun _ => none)
      (Except.ok "r") (Except.ok "r") none none (fun _ => none)
      (fun _ => Except.ok "s") (fun _ => Except.ok "s") ⟨none, none, none⟩).2.2.1
    (by decide),
   (claim_c7_amended (fun _ => Except.ok ["x"]) none (fun _ => none)
      (Except.ok "r") (Except.ok "r") none none (fun _ => none)
      (fun _ => Except.ok "s") (fun _ => Except.ok "s")
      ⟨none, none, none⟩).2.2.2.1 rfl rfl⟩

/-- Claim C8: a pipeline run visits transcriber, classifier, segmenter,
summarizer, generate_insights in that fixed order; the single conditional
branch after the segmenter routes to "segment_summarize" exactly when
needs_segmentation is true and to "full_summarize" otherwise, and both
labels lead to the summarizer node. -/
theorem claim_c8 (state : RouteState) :
    pipeline_trace state
      = ["transcriber", "classifier", "segmenter", "summarizer",
         "generate_insights"] ∧
    (route_to_summarizer state = "segment_summarize"
      ↔ state.needs_segmentation.getD false = true) ∧
    (route_to_summarizer state = "full_summarize"
      ↔ state.needs_segmentation.getD false = false) ∧
    next_node state "segmenter" = some "summarizer" := by
  obtain ⟨ns⟩ := state
  cases ns with
  | none => exact ⟨by decide, by decide, by decide, by decide⟩
  | some b =>
    cases b with
    | false => exact ⟨by decide, by decide, by decide, by decide⟩
    | true => exact ⟨by decide, by decide, by decide, by decide⟩

/-- Witness for C8: with needs_segmentation true the router picks
segment-wise summarization. -/
theorem claim_c8_witness :
    route_to_summarizer { needs_segmentation := some true }
      = "segment_summarize" :=
  (claim_c8 { needs_segmentation := some true }).2.1.mpr (by decide)

theorem validateAux_eq (segs : List StateSegment) :
    ∀ n, (∀ sg ∈ segs, pyStripS sg.content = sg.content ∧ sg.content ≠ "" ∧
        sg.metadata ≠ none) →
      (List.enumFrom n segs).filterMap (fun p =>
        let content := pyStripS p.2.content
        if content = "" then none
        else
          some
            { content := content,
              metadata := some ((p.2.metadata).getD
                { index := p.1,
                  word_count := (pySplit content.toList).length }) }) = segs := by
  induction segs with
  | nil => intro n h; rfl
  | cons sg rest ih =>
    intro n h
    obtain ⟨h1, h2, h3⟩ := h sg (List.mem_cons_self sg rest)
    have hfa : (let content := pyStripS (n, sg).2.content
        if content = "" then none
        else
          some
            { content := content,
              metadata := some (((n, sg).2.metadata).getD
                { index := (n, sg).1,
                  word_count := (pySplit content.toList).length }) })
        = some sg := by
      cases hm : sg.metadata with
      | none => exact absurd hm h3
      | some m =>
        dsimp only
        rw [h1, if_neg h2]
        simp only [Option.getD]
        rw [← hm]
    rw [List.enumFrom_cons, List.filterMap_cons]
    rw [hfa]
    dsimp only
    rw [ih (n + 1) (fun s hs => h s (List.mem_cons_of_mem sg hs))]

theorem validateStateSegments_eq_self (segs : List StateSegment)
    (h : ∀ sg ∈ segs, pyStripS sg.content = sg.content ∧ sg.content ≠ "" ∧
      sg.metadata ≠ none) :
    validateStateSegments segs = segs :=
  validateAux_eq segs 0 h

theorem summarize_segment_ok (parse : String → Option Jval)
    (f : String → String) (ollama : String → Except String String)
    (classification : String) (sg : StateSegment)
    (hf : ∀ p, pyStripS (f p) ≠ "") :
    summarize_segment parse (fun p => Except.ok (f p)) ollama sg.content
      classification sg.metadata
      = Except.ok (c9_segment_summary parse f classification sg) := by
  unfold summarize_segment c9_segment_summary
  dsimp only
  rw [if_neg (hf _)]

theorem summarizeAll_ok (parse : String → Option Jval) (f : String → String)
    (ollama : String → Except String String) (classification : String)
    (hf : ∀ p, pyStripS (f p) ≠ "") :
    ∀ segs : List StateSegment,
      summarizeAll parse (fun p => Except.ok (f p)) ollama classification segs
        = (segs.map (c9_segment_summary parse f classification), []) := by
  intro segs
  induction segs with
  | nil => rfl
  | cons sg rest ih =>
    simp only [summarizeAll]
    rw [summarize_segment_ok parse f ollama classification sg hf]
    dsimp only
    have hcond : ¬(pyStripS
        (c9_segment_summary parse f classification sg).content = "") := hf _
    rw [if_neg hcond, ih]
    rfl

theorem summarizer_core_ok (parse : String → Option Jval)
    (f : String → String) (ollama : String → Except String String)
    (cls0 : Option String) (segs : List StateSegment) (hne : segs ≠ [])
    (hvalid : ∀ sg ∈ segs, pyStripS sg.content = sg.content ∧
      sg.content ≠ "" ∧ sg.metadata ≠ none)
    (hf : ∀ p, pyStripS (f p) ≠ "") :
    summarizer_node_core parse (fun p => Except.ok (f p)) ollama cls0 segs
      = if 1 < segs.length then
          { error := none,
            summaries := [c9_global_summary parse f
              (cls0.getD "\x7b\"type\": \"General Content\"\x7d") segs] }
        else
          { error := none,
            summaries := segs.map (c9_segment_summary parse f
              (cls0.getD "\x7b\"type\": \"General Content\"\x7d")) } := by
  unfold summarizer_node_core
  rw [validateStateSegments_eq_self segs hvalid]
  have hie : segs.isEmpty = false := by
    cases segs with
    | nil => exact absurd rfl hne
    | cons a l => rfl
  have hie2 : ¬(segs.isEmpty = true) := by
    rw [hie]; exact Bool.false_ne_true
  rw [if_neg hie2]
  dsimp only
  rw [summarizeAll_ok parse f ollama _ hf segs]
  dsimp only
  have hmape : ¬((segs.map (c9_segment_summary parse f
      (cls0.getD "\x7b\"type\": \"General Content\"\x7d"))).isEmpty = true) := by
    cases segs with
    | nil => exact absurd rfl hne
    | cons a l => exact Bool.false_ne_true
  rw [if_neg hmape]
  by_cases hlen : 1 < (segs.map (c9_segment_summary parse f
      (cls0.getD "\x7b\"type\": \"General Content\"\x7d"))).length
  · rw [if_pos hlen]
    have hlen2 : 1 < segs.length := by simpa using hlen
    rw [if_pos hlen2]
    have hcgs : create_global_summary (fun p => Except.ok (f p)) ollama
        (segs.map (c9_segment_summary parse f
          (cls0.getD "\x7b\"type\": \"General Content\"\x7d")))
        (videoTypeOf parse (cls0.getD "\x7b\"type\": \"General Content\"\x7d"))
        = Except.ok
            { content := f (get_global_summary_prompt
                (segs.map (c9_segment_summary parse f
                  (cls0.getD "\x7b\"type\": \"General Content\"\x7d")))
                (videoTypeOf parse
                  (cls0.getD "\x7b\"type\": \"General Content\"\x7d"))),
              video_type := videoTypeOf parse
                (cls0.getD "\x7b\"type\": \"General Content\"\x7d"),
              mtype := some "global_summary",
              segment_count := some (segs.map (c9_segment_summary parse f
                (cls0.getD "\x7b\"type\": \"General Content\"\x7d"))).length } :=
      rfl
    rw [hcgs]
    dsimp only
    simp [c9_global_summary]
  · rw [if_neg hlen]
    have hlen2 : ¬(1 < segs.length) := by simpa using hlen
    rw [if_neg hlen2]
    simp

/-- Claim C9: when the state holds more than one valid segment and the
LLM succeeds, summarizer_node summarizes each segment individually and
returns only the single combined global summary over those per-segment
summaries; with exactly one segment it returns that segment's summary and
no global pass runs. -/
theorem claim_c9 (parse : String → Option Jval) (f : String → String)
    (ollama : String → Except String String) (st : SummarizerState)
    (segs : List StateSegment)
    (hsegs : st.segments = some segs) (hne : segs ≠ [])
    (hvalid : ∀ sg ∈ segs, pyStripS sg.content = sg.content ∧
      sg.content ≠ "" ∧ sg.metadata ≠ none)
    (hf : ∀ p, pyStripS (f p) ≠ "") :
    (1 < segs.length →
      summarizer_node parse (fun p => Except.ok (f p)) ollama st
        = { error := none,
            summaries := [c9_global_summary parse f
              (st.classification.getD "\x7b\"type\": \"General Content\"\x7d")
              segs] }) ∧
    (segs.length = 1 →
      summarizer_node parse (fun p => Except.ok (f p)) ollama st
        = { error := none,
            summaries := segs.map (c9_segment_summary parse f
              (st.classification.getD
                "\x7b\"type\": \"General Content\"\x7d")) }) := by
  have hnode : summarizer_node parse (fun p => Except.ok (f p)) ollama st
      = summarizer_node_core parse (fun p => Except.ok (f p)) ollama
          st.classification segs := by
    cases segs with
    | nil => exact absurd rfl hne
    | cons a l =>
      unfold summarizer_node
      rw [hsegs]
  constructor
  · intro hlen
    rw [hnode,
      summarizer_core_ok parse f ollama st.classification segs hne hvalid hf,
      if_pos hlen]
  · intro hlen
    have hlen2 : ¬(1 < segs.length) := by omega
    rw [hnode,
      summarizer_core_ok parse f ollama st.classification segs hne hvalid hf,
      if_neg hlen2]

/-- Witness for C9 at two concrete segments: the node returns exactly
the single global summary. -/
theorem claim_c9_witness :
    summarizer_node (fun _ => none) (fun _ => Except.ok "S")
        (fun _ => Except.error "x")
        ⟨some [⟨"one two", some ⟨0, 2⟩⟩, ⟨"three four", some ⟨1, 2⟩⟩],
         none, none⟩
      = { error := none,
          summaries := [c9_global_summary (fun _ => none) (fun _ => "S")
            ((none : Option String).getD
              "\x7b\"type\": \"General Content\"\x7d")
            [⟨"one two", some ⟨0, 2⟩⟩, ⟨"three four", some ⟨1, 2⟩⟩]] } :=
  (claim_c9 (fun _ => none) (fun _ => "S") (fun _ => Except.error "x")
      ⟨some [⟨"one two", some ⟨0, 2⟩⟩, ⟨"three four", some ⟨1, 2⟩⟩],
       none, none⟩
      [⟨"one two", some ⟨0, 2⟩⟩, ⟨"three four", some ⟨1, 2⟩⟩]
      rfl (by decide) (by decide)
      (fun _ => (by decide : pyStripS "S" ≠ ""))).1 (by decide)
